/-
Verification development for the Fama two-stage annotation engine.

Shallow embedding of the core of:
  * src/py/lib/protein_functional_pipeline.py (compare_hits_lca,
    get_protein_score, parse_background_output),
  * src/py/Fama/DiamondParser/DiamondParser.py (parse_reference_output,
    parse_fastq_seqid),
  * src/py/Fama/ReferenceLibrary/TaxonomyData.py (get_lca, get_lca2,
    get_upper_level_taxon, get_taxonomy_rank, get_lineage_string,
    get_taxonomy_lineage).

Python floats are modelled as exact rationals, tabular rows as already
parsed records, dictionaries as association lists that keep insertion
order, and Python exceptions (KeyError, IndexError, ValueError,
AttributeError) as Except values.  defaultdict auto-vivification on read
is modelled by explicit state passing of the taxonomy tables.  While
loops are modelled with an explicit fuel parameter; running out of fuel
is an error value distinct from every normal result.
-/
import Mathlib

set_option maxHeartbeats 1600000

namespace Fama

/-! ### String helpers

All string manipulation is done over `String.toList` with structurally
recursive helpers, mirroring the Python `str` operations used by the
sources (`split`, `join`, `startswith`, `endswith`, slicing, `int()`). -/

/-- Python `s.split(c)` for a one-character separator: keeps empty chunks,
returns `[""]` on the empty string. -/
def charSplitAux (c : Char) : List Char → List Char → List String
  | [], acc => [String.mk acc.reverse]
  | x :: xs, acc =>
    if x = c then String.mk acc.reverse :: charSplitAux c xs []
    else charSplitAux c xs (x :: acc)

def charSplit (c : Char) (s : String) : List String := charSplitAux c s.toList []

/-- Python `s.split(" # ")`, the separator used for Prodigal protein headers. -/
def splitHeaderAux : List Char → List Char → List String
  | [], acc => [String.mk acc.reverse]
  | ' ' :: '#' :: ' ' :: rest, acc => String.mk acc.reverse :: splitHeaderAux rest []
  | x :: xs, acc => splitHeaderAux xs (x :: acc)

/-- Python `sep.join(parts)`. -/
def strJoinWith (sep : String) : List String → String
  | [] => ""
  | [x] => x
  | x :: y :: xs => x ++ sep ++ strJoinWith sep (y :: xs)

def listPfx : List Char → List Char → Bool
  | [], _ => true
  | _ :: _, [] => false
  | p :: ps, x :: xs => p = x && listPfx ps xs

/-- Python `s.startswith(pfx)`. -/
def strStarts (s pfx : String) : Bool := listPfx pfx.toList s.toList

/-- Python `s.endswith(sfx)`. -/
def strEnds (s sfx : String) : Bool := listPfx sfx.toList.reverse s.toList.reverse

/-- Python slicing `s[n:]`. -/
def strDrop (n : Nat) (s : String) : String := String.mk (s.toList.drop n)

/-- Python slicing `s[:n]`. -/
def strTake (n : Nat) (s : String) : String := String.mk (s.toList.take n)

/-- Python slicing `s[:-n]`. -/
def strDropRight (n : Nat) (s : String) : String :=
  String.mk (s.toList.take (s.toList.length - n))

/-- Python slicing `s[-n:]`. -/
def strTakeRight (n : Nat) (s : String) : String :=
  String.mk (s.toList.drop (s.toList.length - n))

/-- Python `c in s`. -/
def strHasChar (s : String) (c : Char) : Bool := s.toList.contains c

def digitsToNatAux : List Char → Nat → Option Nat
  | [], acc => some acc
  | c :: cs, acc =>
    if c.isDigit then digitsToNatAux cs (acc * 10 + (c.toNat - 48)) else none

/-- Python `int(s)` restricted to decimal literals with an optional leading
minus sign; every other input raises ValueError, modelled as `none`. -/
def strToInt (s : String) : Option Int :=
  match s.toList with
  | [] => none
  | '-' :: [] => none
  | '-' :: cs => (digitsToNatAux cs 0).map (fun n => -(n : Int))
  | cs => (digitsToNatAux cs 0).map (fun n => (n : Int))

/-! ### Ordered dictionaries

Python dicts preserve insertion order; they are modelled as association
lists where assignment replaces in place and fresh keys are appended. -/

def assocFind {α : Type} : List (String × α) → String → Option α
  | [], _ => none
  | p :: rest, k => if p.1 = k then some p.2 else assocFind rest k

def assocSet {α : Type} : List (String × α) → String → α → List (String × α)
  | [], k, v => [(k, v)]
  | p :: rest, k, v => if p.1 = k then (k, v) :: rest else p :: assocSet rest k v

def assocMem {α : Type} (l : List (String × α)) (k : String) : Bool :=
  (assocFind l k).isSome

/-- Insertion into a model of a Python `set` that records first-insertion
order (order is irrelevant to every result proved below, but keeping it
makes all definitions deterministic and executable). -/
def dedupAdd (l : List String) (x : String) : List String :=
  if x ∈ l then l else l ++ [x]

def dedupFO (xs : List String) : List String := xs.foldl dedupAdd []

/-! ### Data model -/

/-- One alignment row / DiamondHit.  The numeric text fields of a DIAMOND
tabular row are modelled already parsed (`create_hit` lives in
lib/diamond_parser/diamond_hit.py, which is not among the provided
sources); the fields follow the spec's input row shape (§6), and
`functions` is the annotation attached by the reference lookup. -/
structure DiamondHit where
  query_id : String
  subject_id : String
  identity : ℚ
  length : ℤ
  mismatch : ℤ
  gap_open : ℤ
  q_start : ℤ
  q_end : ℤ
  s_start : ℤ
  s_end : ℤ
  evalue : ℚ
  bitscore : ℚ
  functions : List String
deriving DecidableEq, Repr, Inhabited

/-- Ordered hit list of one query.  Modelled from the spec: §3 HitList
(lib/diamond_parser/diamond_hit_list.py is not among the provided
sources); `add_hit` appends. -/
structure DiamondHitList where
  query_id : String
  hits : List DiamondHit
deriving DecidableEq, Repr, Inhabited

/-- Reference-data collaborator.  Modelled from the spec: §6 interface of
the reference lookup. -/
structure ReferenceData where
  lookup_functions : String → List String
  lookup_protein_tax : String → String

/-- Per-query record.  Modelled from the spec: §3 AnnotatedQuery
(lib/read_util/annotated_read.py is not among the provided sources). -/
structure AnnotatedRead where
  read_id : String
  read_id_line : String
  status : String
  hit_list : DiamondHitList
  functions : List (String × ℚ)
  taxonomy : String
deriving DecidableEq, Repr, Inhabited

/-- Modelled from the spec: AnnotatedRead.set_status. -/
def AnnotatedRead.set_status (r : AnnotatedRead) (s : String) : AnnotatedRead :=
  { r with status := s }

/-- Modelled from the spec: AnnotatedRead.append_functions — per-function
scores are "accumulated additively ... never overwritten" (§4.3 step 5). -/
def AnnotatedRead.append_functions (r : AnnotatedRead)
    (fns : List (String × ℚ)) : AnnotatedRead :=
  { r with functions := fns.foldl (fun m p =>
      match assocFind m p.1 with
      | some v => assocSet m p.1 (v + p.2)
      | none => m ++ [p]) r.functions }

/-- Modelled from the spec: a fresh AnnotatedQuery as materialised by the
reference pass (§3: initial status is `unprocessed`, no functions, no
taxonomy, sequence payload attached later by the I/O collaborator). -/
def mkAnnotatedRead (rid : String) (hl : DiamondHitList) : AnnotatedRead :=
  { read_id := rid, read_id_line := "", status := "unprocessed",
    hit_list := hl, functions := [], taxonomy := "" }

/-- Modelled from the spec: §4.1 annotation — a hit whose subject maps to
no function gets the sentinel empty-function entry. -/
def annotate_hit (rd : ReferenceData) (h : DiamondHit) : DiamondHit :=
  let fs := rd.lookup_functions h.subject_id
  { h with functions := if fs = [] then [""] else fs }

def DiamondHitList.annotate_hits (l : DiamondHitList) (rd : ReferenceData) :
    DiamondHitList :=
  { l with hits := l.hits.map (annotate_hit rd) }

/-! ### Overlap resolution (reference pass) -/

/-- Overlap fraction of the query intervals of two hits: length of the
intersection over the length of the shorter interval, with reverse-strand
coordinates normalised.  Modelled from the spec: §4.1 filter_list
(lib/diamond_parser/diamond_hit_list.py is not among the provided sources). -/
def overlapFrac (a b : DiamondHit) : ℚ :=
  let al := min a.q_start a.q_end
  let ar := max a.q_start a.q_end
  let bl := min b.q_start b.q_end
  let br := max b.q_start b.q_end
  let inter : ℤ := min ar br - max al bl + 1
  let shorter : ℤ := min (ar - al + 1) (br - bl + 1)
  if inter ≤ 0 then 0 else if shorter ≤ 0 then 0 else (inter : ℚ) / (shorter : ℚ)

def insertByBitscore (h : DiamondHit) : List DiamondHit → List DiamondHit
  | [] => [h]
  | x :: xs => if x.bitscore < h.bitscore then h :: x :: xs else x :: insertByBitscore h xs

def sortByBitscoreDesc (l : List DiamondHit) : List DiamondHit :=
  l.foldr insertByBitscore []

/-- Modelled from the spec: §4.1 filter_list — sort by descending bitscore
and greedily keep each hit whose overlap fraction with every already kept
hit does not exceed the cutoff. -/
def filter_list (overlap_cutoff : ℚ) (hits : List DiamondHit) : List DiamondHit :=
  (sortByBitscoreDesc hits).foldl (fun kept h =>
    if kept.all (fun k => overlapFrac h k ≤ overlap_cutoff) then kept ++ [h] else kept) []

/-! ### compare_hits_lca (protein_functional_pipeline.py lines 100-229) -/

/-- protein_functional_pipeline.get_protein_score (lines 100-111). -/
def get_protein_score (average_coverage coverage : ℚ) : ℚ :=
  if average_coverage > 0 then coverage / average_coverage else coverage

/-- compare_hits_lca lines 143-145: contig id recovered from the protein's
Prodigal FASTA header line. -/
def extractContigId (read_id_line : String) : String :=
  let toks := splitHeaderAux read_id_line.toList []
  let first := toks.headD ""
  strDrop 1 (strJoinWith "_" (charSplit '_' first).dropLast)

/-- Best-hit selection loop of compare_hits_lca (lines 154-160): maximum
bitscore, the earliest hit winning ties, `none` when no hit has a strictly
positive bitscore. -/
def bestHitOf (hits : List DiamondHit) : ℚ × Option DiamondHit :=
  hits.foldl (fun acc nh => if nh.bitscore > acc.1 then (nh.bitscore, some nh) else acc)
    ((0 : ℚ), none)

/-- Bitscore window filter of compare_hits_lca (lines 172-177): keep the
hits whose bitscore is strictly above
`best_bitscore * (1 - bitscore_range_cutoff)`. -/
def windowFilter (hits : List DiamondHit) (best_bitscore brc : ℚ) : List DiamondHit :=
  hits.filter (fun nh => nh.bitscore > best_bitscore * (1 - brc))

/-- Re-admission of the original anchor hit (compare_hits_lca lines
178-181): append it when its subject is absent from the kept subjects and
its bitscore is at least the best bitscore. -/
def readmitAnchor (kept : List DiamondHit) (anchor : DiamondHit)
    (best_bitscore : ℚ) : List DiamondHit :=
  if anchor.subject_id ∉ kept.map (fun nh => nh.subject_id) ∧
      anchor.bitscore ≥ best_bitscore
  then kept ++ [anchor] else kept

/-- One increment of the function Counter (insertion order preserved, as
for collections.Counter). -/
def counterAdd : List (String × Nat) → String → List (String × Nat)
  | [], f => [(f, 1)]
  | p :: rest, f =>
    if p.1 = f then (p.1, p.2 + 1) :: rest else p :: counterAdd rest f

/-- The function Counter of compare_hits_lca (lines 192-194). -/
def functionCounter (hits : List DiamondHit) : List (String × Nat) :=
  hits.foldl (fun c nh => nh.functions.foldl counterAdd c) []

/-- `Counter.most_common(1)`: a function with the largest count, the
earliest inserted winning ties; `none` on an empty counter (where the
source raises IndexError). -/
def mostCommonFn : List (String × Nat) → Option String
  | [] => none
  | x :: rest => some (rest.foldl (fun b p => if p.2 > b.2 then p else b) x).1

def fdictAdd (nh : DiamondHit) :
    List (String × (ℚ × DiamondHit)) → String → List (String × (ℚ × DiamondHit))
  | [], f => [(f, (nh.bitscore, nh))]
  | p :: rest, f =>
    if p.1 = f then
      (if nh.bitscore > p.2.1 then (p.1, (nh.bitscore, nh)) :: rest else p :: rest)
    else p :: fdictAdd nh rest f

/-- Best-hit-per-function dictionary of compare_hits_lca (lines 189-201). -/
def buildFunctionsDict (hits : List DiamondHit) : List (String × (ℚ × DiamondHit)) :=
  hits.foldl (fun d nh => nh.functions.foldl (fdictAdd nh) d) []

/-- Per-function scores (lines 208-213): every non-sentinel function of
the dictionary receives get_protein_score(average_coverage, coverage). -/
def newFunctionScores (d : List (String × (ℚ × DiamondHit))) (avg cov : ℚ) :
    List (String × ℚ) :=
  d.foldl (fun acc p => if p.1 = "" then acc else acc ++ [(p.1, get_protein_score avg cov)]) []

/-- Rebuilt hit list (lines 217-227): one best hit per non-sentinel
function, its query_id rewritten to the read's id and re-annotated. -/
def rebuildHitList (rd : ReferenceData) (rid : String)
    (d : List (String × (ℚ × DiamondHit))) : DiamondHitList :=
  { query_id := rid,
    hits := d.foldl (fun hs p =>
      if p.1 = "" then hs
      else hs ++ [annotate_hit rd { p.2.2 with query_id := rid }]) [] }

/-! ### TaxonomyData (TaxonomyData.py)

`self.names` and `self.nodes` are `defaultdict(dict)`: reading a missing
key inserts an empty inner dict.  Every read of the tables is therefore a
state transformation; all tree operations below return their result (or
the raised exception) together with the possibly grown tables. -/

/-- Modelled from the spec: the reserved unknown id of Fama.const (the
const module is not among the provided sources; §3 requires a reserved
"unknown" id with parent = root). -/
def UNKNOWN_TAXONOMY_ID : String := "0"

/-- Modelled from the spec: the root id of Fama.const; the source compares
against the literal '1' in several loops. -/
def ROOT_TAXONOMY_ID : String := "1"

/-- Modelled from the spec: the canonical rank list RANKS of Fama.const,
ordered root to leaf (§4.4). -/
def RANKS : List String :=
  ["norank", "superkingdom", "phylum", "class", "order", "family", "genus", "species"]

/-- Inner dict of one nodes entry; an auto-vivified entry has no keys. -/
structure TaxNode where
  parent : Option String
  rank : Option String
deriving DecidableEq, Repr, Inhabited

/-- The names/nodes tables of TaxonomyData.  A names entry is its 'name'
key (`none` when the inner dict is empty). -/
structure TaxonomyData where
  names : List (String × Option String)
  nodes : List (String × TaxNode)
deriving DecidableEq, Repr, Inhabited

def emptyTaxNode : TaxNode := { parent := none, rank := none }

def nodesMem (td : TaxonomyData) (k : String) : Bool := assocMem td.nodes k

def namesMem (td : TaxonomyData) (k : String) : Bool := assocMem td.names k

/-- defaultdict read on nodes: a missing key appends an empty inner dict. -/
def nodesGet (td : TaxonomyData) (k : String) : TaxNode × TaxonomyData :=
  match assocFind td.nodes k with
  | some e => (e, td)
  | none => (emptyTaxNode, { td with nodes := td.nodes ++ [(k, emptyTaxNode)] })

/-- defaultdict read on names. -/
def namesGet (td : TaxonomyData) (k : String) : Option String × TaxonomyData :=
  match assocFind td.names k with
  | some e => (e, td)
  | none => (none, { td with names := td.names ++ [(k, none)] })

/-- `self.nodes[k]['parent']`: defaultdict read, then KeyError when the
inner dict has no 'parent' key. -/
def nodesParentS (td : TaxonomyData) (k : String) :
    Except String String × TaxonomyData :=
  match nodesGet td k with
  | (e, td1) =>
    match e.parent with
    | some p => (.ok p, td1)
    | none => (.error "KeyError: parent", td1)

/-- `self.nodes[k]['rank']`. -/
def nodesRankS (td : TaxonomyData) (k : String) :
    Except String String × TaxonomyData :=
  match nodesGet td k with
  | (e, td1) =>
    match e.rank with
    | some r => (.ok r, td1)
    | none => (.error "KeyError: rank", td1)

/-- `self.names[k]['name']`. -/
def namesNameS (td : TaxonomyData) (k : String) :
    Except String String × TaxonomyData :=
  match namesGet td k with
  | (e, td1) =>
    match e with
    | some n => (.ok n, td1)
    | none => (.error "KeyError: name", td1)

/-- While-loop of get_lca (lines 94-100) building one root-exclusive
lineage by ascending from `parent_id`, remapping ancestors missing from
names to the unknown id. -/
def buildLineage (td : TaxonomyData) (parent_id : String) (lineage : List String) :
    Nat → Except String (List String) × TaxonomyData
  | 0 => (.error "fuel exhausted", td)
  | fuel + 1 =>
    match nodesParentS td parent_id with
    | (.error e, td1) => (.error e, td1)
    | (.ok pp, td1) =>
      if pp = ROOT_TAXONOMY_ID then (.ok lineage, td1)
      else
        let nxt := if namesMem td1 pp then pp else UNKNOWN_TAXONOMY_ID
        buildLineage td1 nxt (nxt :: lineage) fuel

/-- `(assocFind td.nodes k).bind parent`: the pure reading of one parent
link, defined exactly where the stateful read neither vivifies nor raises. -/
def nodesParentP (td : TaxonomyData) (k : String) : Option String :=
  (assocFind td.nodes k).bind (fun e => e.parent)

/-- Pure description of `buildLineage` on inputs where the walk succeeds
without vivification. -/
def pureLineage (td : TaxonomyData) (parent_id : String) (lineage : List String) :
    Nat → Option (List String)
  | 0 => none
  | fuel + 1 =>
    match nodesParentP td parent_id with
    | none => none
    | some pp =>
      if pp = ROOT_TAXONOMY_ID then some lineage
      else
        let nxt := if namesMem td pp then pp else UNKNOWN_TAXONOMY_ID
        pureLineage td nxt (nxt :: lineage) fuel

/-- The root-exclusive lineage get_lca builds for one taxonomy id
(initial segment `[parent, id]`, ancestors prepended). -/
def lineageOf (td : TaxonomyData) (fuel : Nat) (tid : String) : Option (List String) :=
  if nodesMem td tid then
    match nodesParentP td tid with
    | none => none
    | some p => pureLineage td p [p, tid] fuel
  else none

/-- Lineage-building phase of get_lca (lines 81-104): ids missing from the
nodes table (or equal to the empty string) are skipped, `min_depth` starts
at 1000 and is lowered to the smallest lineage depth seen. -/
def lcaLineages (fuel : Nat) : TaxonomyData → List String →
    List (String × List String) → Nat →
    Except String (List (String × List String) × Nat) × TaxonomyData
  | td, [], lins, minD => (.ok (lins, minD), td)
  | td, tid :: rest, lins, minD =>
    if nodesMem td tid then
      match nodesParentS td tid with
      | (.error e, td1) => (.error e, td1)
      | (.ok p, td1) =>
        match buildLineage td1 p [p, tid] fuel with
        | (.error e, td2) => (.error e, td2)
        | (.ok lin, td2) =>
          lcaLineages fuel td2 rest (lins ++ [(tid, lin)]) (min minD (lin.length - 1))
    else lcaLineages fuel td rest lins minD

/-- One level of the depth-synchronised descent (lines 109-113): the
non-redundant ancestor ids at depth `i` across all ids present in nodes. -/
def levelIds (td : TaxonomyData) (lins : List (String × List String))
    (ids : List String) (i : Nat) : List String :=
  ids.foldl (fun acc tid =>
    if nodesMem td tid then dedupAdd acc (((assocFind lins tid).getD []).getD i "")
    else acc) []

/-- Descent loop of get_lca (lines 107-124): `steps` counts the remaining
iterations of `range(0, min_depth + 1)`; a level with more than one id
returns the previous level's singleton (popping the empty set raises). -/
def lcaLoop (td : TaxonomyData) (lins : List (String × List String))
    (ids : List String) : List String → Nat → Nat → Except String String
  | upper, _, 0 =>
    if upper.length = 1 then .ok (upper.headD UNKNOWN_TAXONOMY_ID)
    else .ok UNKNOWN_TAXONOMY_ID
  | upper, i, steps + 1 =>
    let s := levelIds td lins ids i
    if s.length > 1 then
      match upper with
      | [] => .error "KeyError: pop from an empty set"
      | u :: _ => .ok u
    else lcaLoop td lins ids s (i + 1) steps

/-- TaxonomyData.get_lca (lines 71-124). -/
def get_lca (fuel : Nat) (td : TaxonomyData) (ids : List String) :
    Except String String × TaxonomyData :=
  if ids.length = 1 then
    (if ids.headD "" = "" then .ok UNKNOWN_TAXONOMY_ID else .ok (ids.headD ""), td)
  else
    match lcaLineages fuel td ids [] 1000 with
    | (.error e, td1) => (.error e, td1)
    | (.ok (lins, minD), td1) =>
      (lcaLoop td1 lins ids [UNKNOWN_TAXONOMY_ID] 0 (minD + 1), td1)

/-! ### get_lca2, get_upper_level_taxon, rank and lineage queries -/

/-- Add one id to the per-rank sets of get_lca2 (a local defaultdict(set)). -/
def levelsAdd (levels : List (String × List String)) (rank tid : String) :
    List (String × List String) :=
  match assocFind levels rank with
  | some s => assocSet levels rank (dedupAdd s tid)
  | none => levels ++ [(rank, [tid])]

/-- Ancestor chain of get_lca2 (lines 148-150). -/
def lca2Chain (td : TaxonomyData) (levels : List (String × List String))
    (parent_id : String) :
    Nat → Except String (List (String × List String)) × TaxonomyData
  | 0 => (.error "fuel exhausted", td)
  | fuel + 1 =>
    if parent_id = ROOT_TAXONOMY_ID then (.ok levels, td)
    else
      match nodesRankS td parent_id with
      | (.error e, td1) => (.error e, td1)
      | (.ok r, td1) =>
        match nodesParentS td1 parent_id with
        | (.error e, td2) => (.error e, td2)
        | (.ok p, td2) => lca2Chain td2 (levelsAdd levels r parent_id) p fuel

/-- Per-id collection loop of get_lca2 (lines 142-153). -/
def lca2Collect (fuel : Nat) : TaxonomyData → List String →
    List (String × List String) →
    Except String (List (String × List String)) × TaxonomyData
  | td, [], levels => (.ok levels, td)
  | td, tid :: rest, levels =>
    if tid = "" then lca2Collect fuel td rest levels
    else if nodesMem td tid then
      match nodesRankS td tid with
      | (.error e, td1) => (.error e, td1)
      | (.ok r, td1) =>
        match nodesParentS td1 tid with
        | (.error e, td2) => (.error e, td2)
        | (.ok p, td2) =>
          match lca2Chain td2 (levelsAdd levels r tid) p fuel with
          | (.error e, td3) => (.error e, td3)
          | (.ok levels1, td3) => lca2Collect fuel td3 rest levels1
    else lca2Collect fuel td rest levels

/-- Rank scan of get_lca2 (lines 159-166): walk RANKS[1:] while each rank
holds exactly one id, keeping the last good singleton; break otherwise. -/
def lca2RankScan (levels : List (String × List String)) :
    List String → List String → List String
  | last_good, [] => last_good
  | last_good, rank :: rest =>
    let s := (assocFind levels rank).getD []
    if s.length = 1 then lca2RankScan levels s rest else last_good

/-- Final ascent of get_lca2 (lines 170-175). -/
def lca2Walk (td : TaxonomyData) (ret : String) :
    Nat → Except String String × TaxonomyData
  | 0 => (.error "fuel exhausted", td)
  | fuel + 1 =>
    if ret = ROOT_TAXONOMY_ID then (.ok ret, td)
    else
      match nodesRankS td ret with
      | (.error e, td1) => (.error e, td1)
      | (.ok r, td1) =>
        if r ∈ RANKS then (.ok ret, td1)
        else
          match nodesParentS td1 ret with
          | (.error e, td2) => (.error e, td2)
          | (.ok p, td2) =>
            match nodesRankS td2 p with
            | (.error e, td3) => (.error e, td3)
            | (.ok _, td3) => lca2Walk td3 p fuel

/-- TaxonomyData.get_lca2 (lines 126-177). -/
def get_lca2 (fuel : Nat) (td : TaxonomyData) (ids : List String) :
    Except String String × TaxonomyData :=
  if ids.length = 1 then
    (if ids.headD "" = "" then .ok UNKNOWN_TAXONOMY_ID else .ok (ids.headD ""), td)
  else
    match lca2Collect fuel td ids [] with
    | (.error e, td1) => (.error e, td1)
    | (.ok levels, td1) =>
      if levels.length = 0 then (.ok UNKNOWN_TAXONOMY_ID, td1)
      else
        let last_good := lca2RankScan levels [ROOT_TAXONOMY_ID] (RANKS.drop 1)
        let ret := last_good.headD UNKNOWN_TAXONOMY_ID
        match nodesRankS td1 ret with
        | (.error e, td2) => (.error e, td2)
        | (.ok _, td2) => lca2Walk td2 ret fuel

/-- Ascent loop of get_upper_level_taxon (lines 256-261). -/
def gultWalk (td : TaxonomyData) (current : String) :
    Nat → Except String (String × String) × TaxonomyData
  | 0 => (.error "fuel exhausted", td)
  | fuel + 1 =>
    if current = "1" then
      match nodesRankS td ROOT_TAXONOMY_ID with
      | (.error e, td1) => (.error e, td1)
      | (.ok r, td1) => (.ok (ROOT_TAXONOMY_ID, r), td1)
    else
      match nodesParentS td current with
      | (.error e, td1) => (.error e, td1)
      | (.ok p, td1) =>
        match nodesRankS td1 p with
        | (.error e, td2) => (.error e, td2)
        | (.ok r, td2) =>
          if r ∈ RANKS then (.ok (p, r), td2)
          else gultWalk td2 p fuel

/-- TaxonomyData.get_upper_level_taxon (lines 240-261). -/
def get_upper_level_taxon (fuel : Nat) (td : TaxonomyData) (tid : String) :
    Except String (String × String) × TaxonomyData :=
  if ¬ namesMem td tid then
    match nodesRankS td UNKNOWN_TAXONOMY_ID with
    | (.error e, td1) => (.error e, td1)
    | (.ok r, td1) => (.ok (UNKNOWN_TAXONOMY_ID, r), td1)
  else
    match nodesParentS td tid with
    | (.error e, td1) => (.error e, td1)
    | (.ok current, td1) =>
      match nodesRankS td1 current with
      | (.error e, td2) => (.error e, td2)
      | (.ok crank, td2) =>
        if current = UNKNOWN_TAXONOMY_ID then
          match nodesRankS td2 UNKNOWN_TAXONOMY_ID with
          | (.error e, td3) => (.error e, td3)
          | (.ok r, td3) => (.ok (UNKNOWN_TAXONOMY_ID, r), td3)
        else if tid = ROOT_TAXONOMY_ID then
          match nodesRankS td2 ROOT_TAXONOMY_ID with
          | (.error e, td3) => (.error e, td3)
          | (.ok r, td3) => (.ok (ROOT_TAXONOMY_ID, r), td3)
        else if crank ∈ RANKS then (.ok (current, crank), td2)
        else gultWalk td2 current fuel

/-- TaxonomyData.get_taxonomy_rank (lines 264-268; for an id missing from
nodes the source returns the unknown id in place of a rank). -/
def get_taxonomy_rank (td : TaxonomyData) (tid : String) :
    Except String String × TaxonomyData :=
  if nodesMem td tid then nodesRankS td tid
  else (.ok UNKNOWN_TAXONOMY_ID, td)

/-- The three single-character replacements of get_lineage_string
(lines 285-287). -/
def sanitizeLineage (s : String) : String :=
  String.mk (s.toList.map (fun c =>
    if c = ' ' then '_' else if c = '(' then '_' else if c = ')' then '_' else c))

/-- While-loop of get_lineage_string (lines 277-283): prepend the names of
ancestors whose rank is canonical, remapping ancestors missing from names
to '0'. -/
def lineageStrWalk (td : TaxonomyData) (parent_id : String) (lineage : List String) :
    Nat → Except String (List String) × TaxonomyData
  | 0 => (.error "fuel exhausted", td)
  | fuel + 1 =>
    match nodesParentS td parent_id with
    | (.error e, td1) => (.error e, td1)
    | (.ok pp, td1) =>
      if pp = "1" then (.ok lineage, td1)
      else
        match nodesRankS td1 parent_id with
        | (.error e, td2) => (.error e, td2)
        | (.ok r, td2) =>
          if r ∈ RANKS then
            match namesNameS td2 parent_id with
            | (.error e, td3) => (.error e, td3)
            | (.ok nm, td3) =>
              let nxt := if namesMem td3 pp then pp else "0"
              lineageStrWalk td3 nxt (nm :: lineage) fuel
          else
            let nxt := if namesMem td2 pp then pp else "0"
            lineageStrWalk td2 nxt lineage fuel

/-- TaxonomyData.get_lineage_string (lines 270-288). -/
def get_lineage_string (fuel : Nat) (td : TaxonomyData) (tid : String) :
    Except String String × TaxonomyData :=
  if ¬ nodesMem td tid then (.ok "", td)
  else
    match namesNameS td tid with
    | (.error e, td1) => (.error e, td1)
    | (.ok nm, td1) =>
      match nodesParentS td1 tid with
      | (.error e, td2) => (.error e, td2)
      | (.ok p, td2) =>
        match lineageStrWalk td2 p [nm] fuel with
        | (.error e, td3) => (.error e, td3)
        | (.ok lin, td3) => (.ok (sanitizeLineage (strJoinWith "_" lin)), td3)

/-- TaxonomyData.get_taxonomy_lineage (lines 290-307): its body is
identical, line for line, to get_lineage_string. -/
def get_taxonomy_lineage (fuel : Nat) (td : TaxonomyData) (tid : String) :
    Except String String × TaxonomyData :=
  get_lineage_string fuel td tid

/-! ### compare_hits_lca: loop and body -/

/-- The body of compare_hits_lca run for one anchor hit matching the
interval (lines 154-229); the Bool is true when the body executed a
`return`, ending the enclosing call. -/
def compareBody (fuel : Nat) (rd : ReferenceData) (brc avg coverage : ℚ)
    (new_hit_list : DiamondHitList) (hit : DiamondHit) (read : AnnotatedRead)
    (td : TaxonomyData) : Except String (AnnotatedRead × TaxonomyData × Bool) :=
  let best_bitscore := (bestHitOf new_hit_list.hits).1
  match (bestHitOf new_hit_list.hits).2 with
  | none => .ok (read.set_status "nofunction", td, true)
  | some best_hit =>
    if "" ∈ best_hit.functions then .ok (read.set_status "nofunction", td, true)
    else
      let read1 := read.set_status "function"
      let new_hits := readmitAnchor (windowFilter new_hit_list.hits best_bitscore brc)
        hit best_bitscore
      let taxonomy_ids := dedupFO (new_hits.map (fun h => rd.lookup_protein_tax h.subject_id))
      let fdict := buildFunctionsDict new_hits
      match mostCommonFn (functionCounter new_hits) with
      | none => .error "IndexError: most_common on an empty Counter"
      | some top =>
        if top = "" then .ok (read1.set_status "nofunction", td, true)
        else
          let read2 := read1.append_functions (newFunctionScores fdict avg coverage)
          let read3 := { read2 with hit_list := rebuildHitList rd read.read_id fdict }
          match get_lca fuel td taxonomy_ids with
          | (.error e, _) => .error e
          | (.ok lca, td1) => .ok ({ read3 with taxonomy := lca }, td1, false)

/-- The `for hit in read.hit_list.hits` loop of compare_hits_lca (line
152): the iterator ranges over the original hit list even after the body
replaces `read.hit_list`, and a `return` in the body ends the call. -/
def compareLoop (fuel : Nat) (rd : ReferenceData) (brc avg coverage : ℚ)
    (new_hit_list : DiamondHitList) (hit_start hit_end : ℤ) :
    List DiamondHit → AnnotatedRead → TaxonomyData →
    Except String (AnnotatedRead × TaxonomyData)
  | [], read, td => .ok (read, td)
  | h :: rest, read, td =>
    if h.q_start = hit_start ∧ h.q_end = hit_end then
      match compareBody fuel rd brc avg coverage new_hit_list h read td with
      | .error e => .error e
      | .ok (read1, td1, true) => .ok (read1, td1)
      | .ok (read1, td1, false) =>
        compareLoop fuel rd brc avg coverage new_hit_list hit_start hit_end rest read1 td1
    else compareLoop fuel rd brc avg coverage new_hit_list hit_start hit_end rest read td

/-- Contig coverage lookup of compare_hits_lca (lines 142-148): default
1.0, replaced when coverage data is present and holds the contig. -/
def coverageOf (coverage_data : Option (List (String × ℚ)))
    (read_id_line : String) : ℚ :=
  let contig_id := extractContigId read_id_line
  match coverage_data with
  | some d =>
    match assocFind d contig_id with
    | some c => c
    | none => 1
  | none => 1

/-- protein_functional_pipeline.compare_hits_lca (lines 114-229). -/
def compare_hits_lca (fuel : Nat) (read : AnnotatedRead) (hit_start hit_end : ℤ)
    (new_hit_list : DiamondHitList) (bitscore_range_cutoff average_coverage : ℚ)
    (td : TaxonomyData) (rd : ReferenceData)
    (coverage_data : Option (List (String × ℚ))) :
    Except String (AnnotatedRead × TaxonomyData) :=
  compareLoop fuel rd bitscore_range_cutoff average_coverage
    (coverageOf coverage_data read.read_id_line) new_hit_list
    hit_start hit_end read.hit_list.hits read td

/-! ### Streaming parsers -/

/-- Cutoffs read from the program configuration (ProgramConfig is an
excluded I/O collaborator; the four values the parsers consume are
modelled as plain parameters). -/
structure PipelineConfig where
  identity_cutoff : ℚ
  length_cutoff : ℤ
  overlap_cutoff : ℚ
  bitscore_range_cutoff : ℚ
deriving DecidableEq, Repr

/-- DiamondParser.parse_fastq_seqid (DiamondParser.py lines 388-426).
The source indexes `end[0]` on the Casava branch, which raises on an empty
second token; that corner is modelled as the empty string. -/
def parse_fastq_seqid (line0 : String) : String × String :=
  let line := if strStarts line0 "@" then strDrop 1 line0 else line0
  if strHasChar line ' ' then
    let toks := charSplit ' ' line
    if toks.length = 2 then (toks.getD 0 "", strTake 1 (toks.getD 1 ""))
    else if toks.length = 3 then
      if strEnds (toks.getD 0 "") ".1" || strEnds (toks.getD 0 "") ".2" then
        (strDropRight 2 (toks.getD 0 ""), strTakeRight 1 (toks.getD 0 ""))
      else (toks.getD 0 "", "")
    else (toks.getD 0 "", "")
  else if strEnds line "/1" || strEnds line "/2" then
    (strDropRight 2 line, strTakeRight 1 line)
  else if strEnds line ".1" || strEnds line ".2" then
    (strDropRight 2 line, strTakeRight 1 line)
  else (line, "")

/-- State of the reference-pass row loop: the working set, the current
query id and the hits collected for it. -/
structure RefState where
  reads : List (String × AnnotatedRead)
  cur : String
  hl : List DiamondHit
deriving DecidableEq, Repr

/-- Group finalisation on a query-id transition (DiamondParser.py lines
120-132): overlap-filter first, then keep the group only if hits remain. -/
def refFinalizeInterior (cfg : PipelineConfig) (rd : ReferenceData)
    (st : RefState) : List (String × AnnotatedRead) :=
  let filtered := filter_list cfg.overlap_cutoff st.hl
  if filtered.length ≠ 0 then
    assocSet st.reads st.cur
      (mkAnnotatedRead st.cur ((DiamondHitList.mk st.cur filtered).annotate_hits rd))
  else st.reads

/-- One row of parse_reference_output (lines 110-133): the query id is
rewritten through parse_fastq_seqid before the cutoff filters. -/
def refStep (cfg : PipelineConfig) (rd : ReferenceData)
    (st : RefState) (row : DiamondHit) : RefState :=
  let hit := { row with query_id := (parse_fastq_seqid row.query_id).1 }
  if hit.identity < cfg.identity_cutoff then st
  else if hit.length < cfg.length_cutoff then st
  else if hit.query_id ≠ st.cur then
    { reads := refFinalizeInterior cfg rd st, cur := hit.query_id, hl := [hit] }
  else { st with hl := st.hl ++ [hit] }

/-- End-of-file finalisation of parse_reference_output (lines 134-140):
the emptiness test precedes the overlap filter here. -/
def refEOF (cfg : PipelineConfig) (rd : ReferenceData)
    (st : RefState) : List (String × AnnotatedRead) :=
  if st.hl.length ≠ 0 then
    let filtered := filter_list cfg.overlap_cutoff st.hl
    assocSet st.reads st.cur
      (mkAnnotatedRead st.cur ((DiamondHitList.mk st.cur filtered).annotate_hits rd))
  else st.reads

/-- DiamondParser.parse_reference_output (lines 81-140) over an injected
row sequence, starting from the current working set. -/
def parse_reference_output (cfg : PipelineConfig) (rd : ReferenceData)
    (reads0 : List (String × AnnotatedRead)) (rows : List DiamondHit) :
    List (String × AnnotatedRead) :=
  refEOF cfg rd (rows.foldl (refStep cfg rd) ⟨reads0, "", []⟩)

/-- Decoding of a composite background query id (pipeline lines 288-291
and 305-308): the last two pipe-delimited tokens are the interval bounds,
the rest is the base protein id; too few tokens or non-numeric bounds
raise. -/
def splitQueryId (q : String) : Except String (String × ℤ × ℤ) :=
  let toks := charSplit '|' q
  if toks.length < 2 then .error "IndexError: list index out of range"
  else
    match strToInt (toks.getD (toks.length - 2) ""),
        strToInt (toks.getD (toks.length - 1) "") with
    | some s, some e => .ok (strJoinWith "|" toks.dropLast.dropLast, s, e)
    | _, _ => .error "ValueError: invalid literal for int"

/-- Average coverage computed by parse_background_output (lines 253-260):
zero when no coverage data was loaded. -/
def bgrAvg (cov : List (String × ℚ)) : ℚ :=
  if cov.length ≠ 0 then (cov.map (fun p => p.2)).sum / (cov.length : ℚ) else 0

/-- State of the background-pass row loop; `cur` is `none` before the
first row, exactly as `current_query_id`/`_hit_list` start as None. -/
structure BgrState where
  reads : List (String × AnnotatedRead)
  cur : Option (String × List DiamondHit)
  td : TaxonomyData
deriving Repr

/-- Group finalisation of parse_background_output (interior: lines
284-303; end of file: lines 304-315 — the two code blocks are
identical): annotate, decode the composite id, then update the anchor
query in place via compare_hits_lca, or skip when the base id is absent. -/
def bgrFinalize (fuel : Nat) (rd : ReferenceData) (brc avg : ℚ)
    (cov : List (String × ℚ)) (reads : List (String × AnnotatedRead))
    (c : String) (hl : List DiamondHit) (td : TaxonomyData) :
    Except String (List (String × AnnotatedRead) × TaxonomyData) :=
  let annotated := (DiamondHitList.mk c hl).annotate_hits rd
  match splitQueryId c with
  | .error e => .error e
  | .ok (protein_id, hs, he) =>
    match assocFind reads protein_id with
    | some read =>
      match compare_hits_lca fuel read hs he annotated brc avg td rd (some cov) with
      | .error e => .error e
      | .ok (read1, td1) => .ok (assocSet reads protein_id read1, td1)
    | none => .ok (reads, td)

/-- One row of parse_background_output (lines 271-303). -/
def bgrStep (fuel : Nat) (cfg : PipelineConfig) (rd : ReferenceData)
    (brc avg : ℚ) (cov : List (String × ℚ)) (st : BgrState) (row : DiamondHit) :
    Except String BgrState :=
  let c := match st.cur with
    | none => row.query_id
    | some p => p.1
  let hl := match st.cur with
    | none => ([] : List DiamondHit)
    | some p => p.2
  if row.identity < cfg.identity_cutoff then .ok { st with cur := some (c, hl) }
  else if row.length < cfg.length_cutoff then .ok { st with cur := some (c, hl) }
  else if row.query_id ≠ c then
    match bgrFinalize fuel rd brc avg cov st.reads c hl st.td with
    | .error e => .error e
    | .ok (reads1, td1) => .ok ⟨reads1, some (row.query_id, [row]), td1⟩
  else .ok { st with cur := some (c, hl ++ [row]) }

/-- The row loop of parse_background_output. -/
def bgrSteps (fuel : Nat) (cfg : PipelineConfig) (rd : ReferenceData)
    (td : TaxonomyData) (cov : List (String × ℚ))
    (reads0 : List (String × AnnotatedRead)) (rows : List DiamondHit) :
    Except String BgrState :=
  rows.foldl (fun acc row => acc.bind (fun st =>
      bgrStep fuel cfg rd cfg.bitscore_range_cutoff (bgrAvg cov) cov st row))
    (.ok ⟨reads0, none, td⟩)

/-- protein_functional_pipeline.parse_background_output (lines 232-315)
over an injected row sequence.  On an empty input the source reaches the
end-of-file block with `_hit_list = None` and raises AttributeError on
`None.annotate_hits`. -/
def parse_background_output (fuel : Nat) (cfg : PipelineConfig)
    (rd : ReferenceData) (td : TaxonomyData) (cov : List (String × ℚ))
    (reads0 : List (String × AnnotatedRead)) (rows : List DiamondHit) :
    Except String (List (String × AnnotatedRead) × TaxonomyData) :=
  match bgrSteps fuel cfg rd td cov reads0 rows with
  | .error e => .error e
  | .ok st =>
    match st.cur with
    | none => .error "AttributeError: NoneType object has no attribute annotate_hits"
    | some (c, hl) =>
      bgrFinalize fuel rd cfg.bitscore_range_cutoff (bgrAvg cov) cov st.reads c hl st.td

/-! ### Concrete data used by witnesses and counterexamples -/

/-- A hit record with the fields the engine never reads fixed to neutral
values. -/
def mkHit (q s : String) (idty : ℚ) (len qs qe : ℤ) (bs : ℚ)
    (fns : List String) : DiamondHit :=
  { query_id := q, subject_id := s, identity := idty, length := len,
    mismatch := 0, gap_open := 0, q_start := qs, q_end := qe, s_start := 1,
    s_end := len, evalue := 0, bitscore := bs, functions := fns }

/-- A reference lookup with two subjects sharing one function. -/
def exRefData : ReferenceData :=
  { lookup_functions := fun s => if s = "s1" then ["F1"] else if s = "s2" then ["F1"] else [],
    lookup_protein_tax := fun s => if s = "s1" then "C" else if s = "s2" then "E" else "" }

/-- The spec's example taxonomy: root→A→B→C and root→A→D→E, plus the
reserved root and unknown entries. -/
def exTree : TaxonomyData :=
  { names := [("1", some "root"), ("0", some "Unknown"), ("A", some "A"),
              ("B", some "B"), ("C", some "C"), ("D", some "D"), ("E", some "E")],
    nodes := [("1", ⟨some "1", some "norank"⟩), ("0", ⟨some "1", some "norank"⟩),
              ("A", ⟨some "1", some "superkingdom"⟩), ("B", ⟨some "A", some "phylum"⟩),
              ("C", ⟨some "B", some "class"⟩), ("D", ⟨some "A", some "phylum"⟩),
              ("E", ⟨some "D", some "class"⟩)] }

def wHitIn : DiamondHit := mkHit "q" "sIn" 90 100 1 100 50 ["F1"]

def wHitEdge : DiamondHit := mkHit "q" "sEdge" 90 100 1 100 (3/2) ["F1"]

def wAnchor : DiamondHit := mkHit "q" "s0" 90 100 1 100 60 ["F1"]

/-! ### C8: normalisation never divides by zero -/

/-- C8: get_protein_score falls back to the unscaled coverage whenever the
average coverage is zero or negative, and divides by the average coverage
whenever it is positive. -/
theorem c8_get_protein_score_no_div_zero :
    ∀ average_coverage coverage : ℚ,
      (average_coverage ≤ 0 → get_protein_score average_coverage coverage = coverage) ∧
      (0 < average_coverage →
        get_protein_score average_coverage coverage = coverage / average_coverage) := by
  intro ac c
  constructor
  · intro h
    unfold get_protein_score
    rw [if_neg (by exact not_lt.mpr h)]
  · intro h
    unfold get_protein_score
    rw [if_pos h]

/-- Witness for C8: zero average coverage keeps coverage 5, average
coverage 2 halves coverage 6. -/
theorem c8_witness :
    get_protein_score 0 5 = 5 ∧ get_protein_score 2 6 = 3 := by
  constructor
  · exact (c8_get_protein_score_no_div_zero 0 5).1 (by norm_num)
  · rw [(c8_get_protein_score_no_div_zero 2 6).2 (by norm_num)]
    norm_num

/-! ### C3: strict bitscore window boundary -/

/-- Membership characterisation of the bitscore window filter. -/
theorem windowFilter_mem (hits : List DiamondHit) (b brc : ℚ) (h : DiamondHit) :
    h ∈ windowFilter hits b brc ↔ h ∈ hits ∧ b * (1 - brc) < h.bitscore := by
  simp [windowFilter, List.mem_filter]

/-- C3: the window filter keeps a validation hit iff its bitscore is
strictly greater than best_bitscore * (1 - bitscore_range_cutoff); a hit
whose bitscore equals that bound exactly is excluded. -/
theorem c3_window_filter_strict :
    (∀ (hits : List DiamondHit) (b brc : ℚ) (h : DiamondHit),
      h ∈ windowFilter hits b brc ↔ h ∈ hits ∧ b * (1 - brc) < h.bitscore) ∧
    (∀ (hits : List DiamondHit) (b brc : ℚ) (h : DiamondHit),
      h.bitscore = b * (1 - brc) → h ∉ windowFilter hits b brc) := by
  refine ⟨windowFilter_mem, ?_⟩
  intro hits b brc h heq hin
  have h2 := ((windowFilter_mem hits b brc h).mp hin).2
  rw [heq] at h2
  exact lt_irrefl _ h2

/-- Witness for C3: with best bitscore 50 and cutoff 0.97 the bound is
1.5; a bitscore-50 hit is characterised by the window membership and the
bitscore-1.5 hit is excluded. -/
theorem c3_witness :
    (wHitIn ∈ windowFilter [wHitIn, wHitEdge] 50 (97/100) ↔
      wHitIn ∈ [wHitIn, wHitEdge] ∧ (50 : ℚ) * (1 - 97/100) < wHitIn.bitscore) ∧
    wHitEdge ∉ windowFilter [wHitIn, wHitEdge] 50 (97/100) := by
  constructor
  · exact c3_window_filter_strict.1 [wHitIn, wHitEdge] 50 (97/100) wHitIn
  · exact c3_window_filter_strict.2 [wHitIn, wHitEdge] 50 (97/100) wHitEdge
      (by norm_num [wHitEdge, mkHit])

/-! ### C4: anchor re-admission rule -/

/-- C4: the anchor hit is appended to the window-kept set exactly when its
subject is absent from the kept subjects and its bitscore is at least the
best bitscore; when either condition fails the kept set is unchanged. -/
theorem c4_readmission_rule :
    ∀ (kept : List DiamondHit) (anchor : DiamondHit) (b : ℚ),
      ((anchor.subject_id ∉ kept.map (fun nh => nh.subject_id) ∧ anchor.bitscore ≥ b) →
        readmitAnchor kept anchor b = kept ++ [anchor]) ∧
      (¬(anchor.subject_id ∉ kept.map (fun nh => nh.subject_id) ∧ anchor.bitscore ≥ b) →
        readmitAnchor kept anchor b = kept) := by
  intro kept anchor b
  constructor
  · intro h
    unfold readmitAnchor
    rw [if_pos h]
  · intro h
    unfold readmitAnchor
    rw [if_neg h]

/-- Witness for C4: a fresh subject with bitscore 60 ≥ 50 is appended; the
already present subject is not. -/
theorem c4_witness :
    readmitAnchor [wHitIn] wAnchor 50 = [wHitIn, wAnchor] ∧
    readmitAnchor [wHitIn] wHitIn 50 = [wHitIn] := by
  constructor
  · exact (c4_readmission_rule [wHitIn] wAnchor 50).1
      (by constructor
          · simp +decide [wAnchor, wHitIn, mkHit]
          · norm_num [wAnchor, mkHit])
  · exact (c4_readmission_rule [wHitIn] wHitIn 50).2
      (by simp +decide [wHitIn, mkHit])

/-! ### Lemmas on the compare loop -/

/-- Hits before the matching anchor hit are skipped by the loop. -/
theorem compareLoop_skip (fuel : Nat) (rd : ReferenceData) (brc avg cov : ℚ)
    (nhl : DiamondHitList) (hs he : ℤ) :
    ∀ (pre rest : List DiamondHit) (read : AnnotatedRead) (td : TaxonomyData),
      (∀ h ∈ pre, ¬(h.q_start = hs ∧ h.q_end = he)) →
      compareLoop fuel rd brc avg cov nhl hs he (pre ++ rest) read td =
        compareLoop fuel rd brc avg cov nhl hs he rest read td := by
  intro pre
  induction pre with
  | nil => intro rest read td _; rfl
  | cons h t ih =>
    intro rest read td hpre
    have hh := hpre h (by simp)
    simp only [List.cons_append, compareLoop]
    rw [if_neg hh]
    exact ih rest read td (fun x hx => hpre x (by simp [hx]))

/-- Body outcome when no best hit exists or the best hit carries the
sentinel: status becomes nofunction and the body returns at once. -/
theorem compareBody_nofunction_of_best (fuel : Nat) (rd : ReferenceData)
    (brc avg cov : ℚ) (nhl : DiamondHitList) (hit : DiamondHit)
    (read : AnnotatedRead) (td : TaxonomyData)
    (hbest : (bestHitOf nhl.hits).2 = none ∨
      ∃ bh, (bestHitOf nhl.hits).2 = some bh ∧ "" ∈ bh.functions) :
    compareBody fuel rd brc avg cov nhl hit read td =
      .ok (read.set_status "nofunction", td, true) := by
  unfold compareBody
  rcases hbest with h | ⟨bh, h, hbf⟩
  · rw [h]
  · rw [h]
    simp only [if_pos hbf]

/-- Body outcome when the most frequent function among the window-kept
hits (anchor re-admission included) is the sentinel: the majority veto
fires and the body returns with status nofunction, regardless of the best
hit's own functions. -/
theorem compareBody_nofunction_of_veto (fuel : Nat) (rd : ReferenceData)
    (brc avg cov : ℚ) (nhl : DiamondHitList) (hit : DiamondHit)
    (read : AnnotatedRead) (td : TaxonomyData)
    (hmc : mostCommonFn (functionCounter (readmitAnchor
        (windowFilter nhl.hits (bestHitOf nhl.hits).1 brc) hit
        (bestHitOf nhl.hits).1)) = some "") :
    compareBody fuel rd brc avg cov nhl hit read td =
      .ok (read.set_status "nofunction", td, true) := by
  unfold compareBody
  cases hb : (bestHitOf nhl.hits).2 with
  | none => rfl
  | some bh =>
    by_cases hbf : "" ∈ bh.functions
    · simp only [if_pos hbf]
    · simp only [if_neg hbf, hmc, if_true]
      rfl

/-! ### C2: majority veto governs the no-function decision -/

/-- C2: when the most frequent function id among the bitscore-window-kept
hits is the sentinel, compare_hits_lca sets status nofunction and returns
without touching functions, hit list or taxonomy, whatever the best hit's
own functions are; `pre`/`hit`/`post` locate the first anchor hit matching
the interval. -/
theorem c2_majority_veto :
    ∀ (fuel : Nat) (rd : ReferenceData) (td : TaxonomyData) (read : AnnotatedRead)
      (hs he : ℤ) (nhl : DiamondHitList) (brc avg : ℚ)
      (cov : Option (List (String × ℚ))) (pre : List DiamondHit)
      (hit : DiamondHit) (post : List DiamondHit),
      read.hit_list.hits = pre ++ hit :: post →
      (∀ h ∈ pre, ¬(h.q_start = hs ∧ h.q_end = he)) →
      hit.q_start = hs → hit.q_end = he →
      mostCommonFn (functionCounter (readmitAnchor
        (windowFilter nhl.hits (bestHitOf nhl.hits).1 brc) hit
        (bestHitOf nhl.hits).1)) = some "" →
      compare_hits_lca fuel read hs he nhl brc avg td rd cov =
        .ok (read.set_status "nofunction", td) := by
  intro fuel rd td read hs he nhl brc avg cov pre hit post hsplit hpre h1 h2 hmc
  unfold compare_hits_lca
  rw [hsplit, compareLoop_skip fuel rd brc avg _ nhl hs he pre _ read td hpre]
  simp only [compareLoop]
  rw [if_pos ⟨h1, h2⟩,
    compareBody_nofunction_of_veto fuel rd brc avg _ nhl hit read td hmc]

/-! ### C6: missing or sentinel best hit -/

/-- C6: once the matching anchor hit is located, if no best hit exists or
the best hit's function set holds the sentinel, compare_hits_lca sets
status nofunction and returns with functions, hit list and taxonomy
untouched. -/
theorem c6_best_hit_nofunction :
    ∀ (fuel : Nat) (rd : ReferenceData) (td : TaxonomyData) (read : AnnotatedRead)
      (hs he : ℤ) (nhl : DiamondHitList) (brc avg : ℚ)
      (cov : Option (List (String × ℚ))) (pre : List DiamondHit)
      (hit : DiamondHit) (post : List DiamondHit),
      read.hit_list.hits = pre ++ hit :: post →
      (∀ h ∈ pre, ¬(h.q_start = hs ∧ h.q_end = he)) →
      hit.q_start = hs → hit.q_end = he →
      ((bestHitOf nhl.hits).2 = none ∨
        ∃ bh, (bestHitOf nhl.hits).2 = some bh ∧ "" ∈ bh.functions) →
      compare_hits_lca fuel read hs he nhl brc avg td rd cov =
        .ok (read.set_status "nofunction", td) := by
  intro fuel rd td read hs he nhl brc avg cov pre hit post hsplit hpre h1 h2 hbest
  unfold compare_hits_lca
  rw [hsplit, compareLoop_skip fuel rd brc avg _ nhl hs he pre _ read td hpre]
  simp only [compareLoop]
  rw [if_pos ⟨h1, h2⟩,
    compareBody_nofunction_of_best fuel rd brc avg _ nhl hit read td hbest]

/-- Witness data for C2: the best hit carries F1, but two lower hits in
the window carry the sentinel, so the sentinel wins the majority vote. -/
def exVetoAnchor : DiamondHit := mkHit "p1" "s0" 90 100 1 100 10 ["F1"]

def exVetoRead : AnnotatedRead :=
  { read_id := "p1", read_id_line := "", status := "unprocessed",
    hit_list := ⟨"p1", [exVetoAnchor]⟩, functions := [], taxonomy := "" }

def exVetoNew : DiamondHitList :=
  ⟨"p1|1|100", [mkHit "p1|1|100" "s1" 90 100 1 100 50 ["F1"],
    mkHit "p1|1|100" "sX" 90 100 1 100 49 [""],
    mkHit "p1|1|100" "sY" 90 100 1 100 48 [""]]⟩

/-- Witness for C2: the sentinel outvotes the best hit's function F1 and
the read comes back with only its status changed. -/
theorem c2_witness :
    compare_hits_lca 5 exVetoRead 1 100 exVetoNew (97/100) 0 exTree exRefData none =
      .ok (exVetoRead.set_status "nofunction", exTree) := by
  refine c2_majority_veto 5 exRefData exTree exVetoRead 1 100 exVetoNew (97/100) 0 none
      [] exVetoAnchor [] rfl (by simp) rfl rfl ?_
  norm_num +decide [exVetoNew, exVetoAnchor, mkHit, bestHitOf, windowFilter,
    readmitAnchor, functionCounter, counterAdd, mostCommonFn]

/-- Witness for C6: an empty validation list yields no best hit and the
read comes back with only its status changed. -/
theorem c6_witness :
    compare_hits_lca 5 exVetoRead 1 100 ⟨"p1|1|100", []⟩ (97/100) 0 exTree exRefData none =
      .ok (exVetoRead.set_status "nofunction", exTree) :=
  c6_best_hit_nofunction 5 exRefData exTree exVetoRead 1 100 ⟨"p1|1|100", []⟩ (97/100) 0
    none [] exVetoAnchor [] rfl (by simp) rfl rfl (Or.inl rfl)

/-! ### C10: the best hit passes its own window, except at cutoff zero -/

theorem bestHitOf_aux :
    ∀ (l : List DiamondHit) (acc : ℚ × Option DiamondHit) (b : ℚ) (bh : DiamondHit),
      l.foldl (fun acc nh => if nh.bitscore > acc.1 then (nh.bitscore, some nh) else acc)
          acc = (b, some bh) →
      acc = (b, some bh) ∨ (bh ∈ l ∧ bh.bitscore = b ∧ acc.1 < b) := by
  intro l
  induction l with
  | nil => intro acc b bh h; exact Or.inl h
  | cons x xs ih =>
    intro acc b bh h
    simp only [List.foldl_cons] at h
    by_cases hx : x.bitscore > acc.1
    · rw [if_pos hx] at h
      rcases ih _ b bh h with heq | ⟨hmem, hbs, hlt⟩
      · right
        have h1 : x.bitscore = b := congrArg Prod.fst heq
        have h2 : some x = some bh := congrArg Prod.snd heq
        have h3 : x = bh := Option.some_injective _ h2
        exact ⟨by rw [h3]; exact List.mem_cons_self _ _, by rw [← h3]; exact h1,
          by rw [← h1]; exact hx⟩
      · exact Or.inr ⟨List.mem_cons_of_mem _ hmem, hbs, lt_trans hx hlt⟩
    · rw [if_neg hx] at h
      rcases ih _ b bh h with heq | ⟨hmem, hbs, hlt⟩
      · exact Or.inl heq
      · exact Or.inr ⟨List.mem_cons_of_mem _ hmem, hbs, hlt⟩

/-- What best-hit selection returns: a member of the list, whose bitscore
is the reported best and strictly positive. -/
theorem bestHitOf_spec (hits : List DiamondHit) (b : ℚ) (bh : DiamondHit)
    (h : bestHitOf hits = (b, some bh)) :
    bh ∈ hits ∧ bh.bitscore = b ∧ 0 < b := by
  rcases bestHitOf_aux hits ((0 : ℚ), none) b bh h with heq | ⟨hm, hb, hlt⟩
  · exact absurd (congrArg Prod.snd heq) (by simp)
  · exact ⟨hm, hb, hlt⟩

theorem counterAdd_ne (c : List (String × Nat)) (f : String) : counterAdd c f ≠ [] := by
  cases c with
  | nil => simp [counterAdd]
  | cons p rest =>
    unfold counterAdd
    by_cases hp : p.1 = f
    · rw [if_pos hp]; simp
    · rw [if_neg hp]; simp

theorem foldl_counterAdd_ne :
    ∀ (fs : List String) (c : List (String × Nat)),
      c ≠ [] ∨ fs ≠ [] → fs.foldl counterAdd c ≠ [] := by
  intro fs
  induction fs with
  | nil =>
    intro c h
    rcases h with h | h
    · exact h
    · exact absurd rfl h
  | cons f rest ih =>
    intro c _
    simp only [List.foldl_cons]
    exact ih (counterAdd c f) (Or.inl (counterAdd_ne c f))

theorem foldl_hits_counter_ne :
    ∀ (l : List DiamondHit) (c : List (String × Nat)),
      c ≠ [] → l.foldl (fun c nh => nh.functions.foldl counterAdd c) c ≠ [] := by
  intro l
  induction l with
  | nil => intro c h; exact h
  | cons x xs ih =>
    intro c h
    simp only [List.foldl_cons]
    exact ih _ (foldl_counterAdd_ne _ _ (Or.inl h))

/-- A hit list containing at least one annotated hit yields a non-empty
function counter. -/
theorem functionCounter_ne :
    ∀ (l : List DiamondHit) (c : List (String × Nat)),
      (∃ x ∈ l, x.functions ≠ []) →
      l.foldl (fun c nh => nh.functions.foldl counterAdd c) c ≠ [] := by
  intro l
  induction l with
  | nil =>
    intro c h
    rcases h with ⟨x, hx, _⟩
    exact absurd hx (List.not_mem_nil x)
  | cons y ys ih =>
    intro c h
    rcases h with ⟨x, hx, hfx⟩
    rcases List.mem_cons.mp hx with rfl | hx2
    · simp only [List.foldl_cons]
      exact foldl_hits_counter_ne ys _ (foldl_counterAdd_ne _ _ (Or.inr hfx))
    · simp only [List.foldl_cons]
      exact ih _ ⟨x, hx2, hfx⟩

theorem mostCommonFn_ne_none (c : List (String × Nat)) (h : c ≠ []) :
    mostCommonFn c ≠ none := by
  cases c with
  | nil => exact absurd rfl h
  | cons x rest => simp [mostCommonFn]

/-- Witness data for C10: with bitscore_range_cutoff zero the strict
window excludes even the best hit, the anchor scores below the best and is
not re-admitted, and most_common is reached on an empty Counter. -/
def exZeroRead : AnnotatedRead :=
  { read_id := "p1", read_id_line := "", status := "unprocessed",
    hit_list := ⟨"p1", [mkHit "p1" "s0" 90 100 1 10 10 ["F1"]]⟩,
    functions := [], taxonomy := "" }

def exZeroNew : DiamondHitList :=
  ⟨"p1|1|10", [mkHit "p1|1|10" "s1" 90 100 5 9 50 ["F1"]]⟩

/-- C10: whenever a best hit exists and the bitscore range cutoff is
strictly positive, the best bitscore is positive, the best hit passes its
own window so the kept set is non-empty; every window-kept hit of an
annotated list is annotated, and the majority-vote lookup is never run on
an empty counter; with cutoff zero the guarantee fails: the concrete run
reaches most_common on an empty Counter and raises. -/
theorem c10_window_keeps_best :
    (∀ (hits : List DiamondHit) (b : ℚ) (bh : DiamondHit) (brc : ℚ),
      bestHitOf hits = (b, some bh) → 0 < brc →
      0 < b ∧ bh ∈ windowFilter hits b brc ∧ windowFilter hits b brc ≠ []) ∧
    (∀ (hits : List DiamondHit) (b brc : ℚ) (anchor : DiamondHit),
      (∀ h ∈ hits, h.functions ≠ []) →
      windowFilter hits b brc ≠ [] →
      (∀ h ∈ windowFilter hits b brc, h.functions ≠ []) ∧
      mostCommonFn (functionCounter
        (readmitAnchor (windowFilter hits b brc) anchor b)) ≠ none) ∧
    compare_hits_lca 5 exZeroRead 1 10 exZeroNew 0 0 exTree exRefData none =
      .error "IndexError: most_common on an empty Counter" := by
  refine ⟨?_, ?_, ?_⟩
  · intro hits b bh brc hbest hbrc
    obtain ⟨hm, hbs, hpos⟩ := bestHitOf_spec hits b bh hbest
    have hwin : b * (1 - brc) < bh.bitscore := by
      rw [hbs]; nlinarith
    have hmem : bh ∈ windowFilter hits b brc :=
      (windowFilter_mem hits b brc bh).mpr ⟨hm, hwin⟩
    exact ⟨hpos, hmem, List.ne_nil_of_mem hmem⟩
  · intro hits b brc anchor hann hne
    have hsub : ∀ h ∈ windowFilter hits b brc, h.functions ≠ [] := by
      intro h hh
      exact hann h ((windowFilter_mem hits b brc h).mp hh).1
    refine ⟨hsub, ?_⟩
    rcases List.exists_mem_of_ne_nil _ hne with ⟨w, hw⟩
    have hwmem : w ∈ readmitAnchor (windowFilter hits b brc) anchor b := by
      unfold readmitAnchor
      by_cases hc : anchor.subject_id ∉
          (windowFilter hits b brc).map (fun nh => nh.subject_id) ∧
          anchor.bitscore ≥ b
      · rw [if_pos hc]; exact List.mem_append_left _ hw
      · rw [if_neg hc]; exact hw
    exact mostCommonFn_ne_none _
      (functionCounter_ne _ [] ⟨w, hwmem, hsub w hw⟩)
  · norm_num +decide [compare_hits_lca, coverageOf, extractContigId, splitHeaderAux,
      strJoinWith, charSplit, charSplitAux, strDrop, compareLoop, compareBody,
      bestHitOf, windowFilter, readmitAnchor, functionCounter, mostCommonFn,
      dedupFO, dedupAdd, buildFunctionsDict, exZeroRead, exZeroNew, mkHit]

/-- Witness for C10 at cutoff 0.97 and a singleton annotated list. -/
theorem c10_witness :
    ((0:ℚ) < 50 ∧ wHitIn ∈ windowFilter [wHitIn] 50 (97/100) ∧
      windowFilter [wHitIn] 50 (97/100) ≠ []) ∧
    ((∀ h ∈ windowFilter [wHitIn] 50 (97/100), h.functions ≠ []) ∧
      mostCommonFn (functionCounter
        (readmitAnchor (windowFilter [wHitIn] 50 (97/100)) wAnchor 50)) ≠ none) := by
  constructor
  · exact c10_window_keeps_best.1 [wHitIn] 50 wHitIn (97/100)
      (by norm_num [bestHitOf, wHitIn, mkHit]) (by norm_num)
  · exact c10_window_keeps_best.2.1 [wHitIn] 50 (97/100) wAnchor
      (by simp +decide [wHitIn, mkHit])
      (by norm_num +decide [windowFilter, wHitIn, mkHit])

/-! ### C1: empty input streams -/

/-- C1: on an empty row stream parse_reference_output returns the working
set unchanged, but parse_background_output reaches its end-of-file block
with `_hit_list = None` and raises AttributeError instead of returning. -/
theorem c1_empty_input :
    ∀ (fuel : Nat) (cfg : PipelineConfig) (rd : ReferenceData) (td : TaxonomyData)
      (cov : List (String × ℚ)) (reads0 : List (String × AnnotatedRead)),
      parse_background_output fuel cfg rd td cov reads0 [] =
        .error "AttributeError: NoneType object has no attribute annotate_hits" ∧
      parse_reference_output cfg rd reads0 [] = reads0 := by
  intro fuel cfg rd td cov reads0
  exact ⟨rfl, rfl⟩

/-! ### C5: depth-synchronised first-divergence characterisation of get_lca -/

/-- The min_depth accumulator of get_lca, described through the pure
lineages: it starts at 1000 and takes the minimum of the lineage depths
(lineage length minus one). -/
def minDepthOf (L : String → List String) (ids : List String) : Nat :=
  ids.foldl (fun m id => min m ((L id).length - 1)) 1000

/-- The non-redundant ancestor ids at depth `i`, in first-occurrence
order, described through the pure lineages. -/
def levelEntries (L : String → List String) (ids : List String) (i : Nat) :
    List String :=
  dedupFO (ids.map (fun id => (L id).getD i ""))

theorem nodesParentS_of_pure (td : TaxonomyData) (k pp : String)
    (h : nodesParentP td k = some pp) :
    nodesParentS td k = (.ok pp, td) := by
  unfold nodesParentP at h
  cases hf : assocFind td.nodes k with
  | none => rw [hf] at h; exact absurd h (by simp)
  | some e =>
    rw [hf] at h
    simp only [Option.some_bind] at h
    unfold nodesParentS nodesGet
    rw [hf]
    simp [h]

theorem buildLineage_of_pure :
    ∀ (fuel : Nat) (td : TaxonomyData) (p : String) (lin r : List String),
      pureLineage td p lin fuel = some r →
      buildLineage td p lin fuel = (.ok r, td) := by
  intro fuel
  induction fuel with
  | zero =>
    intro td p lin r h
    exact absurd h (by simp [pureLineage])
  | succ n ih =>
    intro td p lin r h
    unfold pureLineage at h
    cases hp : nodesParentP td p with
    | none => rw [hp] at h; exact absurd h (by simp)
    | some pp =>
      simp only [hp] at h
      unfold buildLineage
      simp only [nodesParentS_of_pure td p pp hp]
      by_cases hroot : pp = ROOT_TAXONOMY_ID
      · rw [if_pos hroot] at h ⊢
        simp only [Option.some.injEq] at h
        rw [h]
      · rw [if_neg hroot] at h ⊢
        exact ih td _ _ r h

theorem lineageOf_mem (td : TaxonomyData) (fuel : Nat) (tid : String)
    (L : List String) (h : lineageOf td fuel tid = some L) :
    nodesMem td tid = true := by
  unfold lineageOf at h
  by_cases hm : nodesMem td tid
  · exact hm
  · rw [if_neg hm] at h; exact absurd h (by simp)

theorem lineageOf_parent (td : TaxonomyData) (fuel : Nat) (tid : String)
    (L : List String) (h : lineageOf td fuel tid = some L) :
    ∃ p, nodesParentP td tid = some p ∧ pureLineage td p [p, tid] fuel = some L := by
  unfold lineageOf at h
  rw [if_pos (lineageOf_mem td fuel tid L h)] at h
  cases hp : nodesParentP td tid with
  | none => rw [hp] at h; exact absurd h (by simp)
  | some p => rw [hp] at h; exact ⟨p, rfl, h⟩

theorem lcaLineages_spec (fuel : Nat) (td : TaxonomyData) (L : String → List String) :
    ∀ (ids : List String) (lins : List (String × List String)) (minD : Nat),
      (∀ id ∈ ids, lineageOf td fuel id = some (L id)) →
      lcaLineages fuel td ids lins minD =
        (.ok (lins ++ ids.map (fun id => (id, L id)),
          ids.foldl (fun m id => min m ((L id).length - 1)) minD), td) := by
  intro ids
  induction ids with
  | nil => intro lins minD _; simp [lcaLineages]
  | cons tid rest ih =>
    intro lins minD hL
    have h1 := hL tid (by simp)
    have hmem := lineageOf_mem td fuel tid _ h1
    obtain ⟨p, hp, hpl⟩ := lineageOf_parent td fuel tid _ h1
    unfold lcaLineages
    rw [if_pos hmem]
    simp only [nodesParentS_of_pure td tid p hp,
      buildLineage_of_pure fuel td p [p, tid] (L tid) hpl]
    rw [ih _ _ (fun x hx => hL x (by simp [hx]))]
    simp [List.append_assoc]

theorem assocFind_map_self (L : String → List String) :
    ∀ (ids : List String) (id : String), id ∈ ids →
      assocFind (ids.map (fun x => (x, L x))) id = some (L id) := by
  intro ids
  induction ids with
  | nil => intro id h; exact absurd h (List.not_mem_nil id)
  | cons y ys ih =>
    intro id h
    simp only [List.map_cons, assocFind]
    by_cases hy : y = id
    · rw [if_pos hy, hy]
    · rw [if_neg hy]
      rcases List.mem_cons.mp h with rfl | h2
      · exact absurd rfl hy
      · exact ih id h2

theorem levelIds_eq (td : TaxonomyData) (lins : List (String × List String))
    (L : String → List String) (i : Nat) :
    ∀ (ids : List String),
      (∀ id ∈ ids, nodesMem td id = true) →
      (∀ id ∈ ids, assocFind lins id = some (L id)) →
      levelIds td lins ids i = levelEntries L ids i := by
  have haux : ∀ (ids : List String) (acc : List String),
      (∀ id ∈ ids, nodesMem td id = true) →
      (∀ id ∈ ids, assocFind lins id = some (L id)) →
      ids.foldl (fun acc tid =>
        if nodesMem td tid then dedupAdd acc (((assocFind lins tid).getD []).getD i "")
        else acc) acc =
      (ids.map (fun id => (L id).getD i "")).foldl dedupAdd acc := by
    intro ids
    induction ids with
    | nil => intro acc _ _; rfl
    | cons y ys ih =>
      intro acc hm hf
      simp only [List.foldl_cons, List.map_cons]
      rw [if_pos (hm y (by simp)), hf y (by simp)]
      simp only [Option.getD_some]
      exact ih _ (fun x hx => hm x (by simp [hx])) (fun x hx => hf x (by simp [hx]))
  intro ids hm hf
  unfold levelIds levelEntries dedupFO
  exact haux ids [] hm hf

theorem dedupAdd_ne (acc : List String) (x : String) : dedupAdd acc x ≠ [] := by
  unfold dedupAdd
  by_cases h : x ∈ acc
  · rw [if_pos h]; exact List.ne_nil_of_mem h
  · rw [if_neg h]; simp

theorem foldl_dedupAdd_ne :
    ∀ (xs acc : List String), acc ≠ [] → xs.foldl dedupAdd acc ≠ [] := by
  intro xs
  induction xs with
  | nil => intro acc h; exact h
  | cons y ys ih =>
    intro acc _
    simp only [List.foldl_cons]
    exact ih _ (dedupAdd_ne acc y)

theorem levelEntries_ne (L : String → List String) (ids : List String) (i : Nat)
    (h : ids ≠ []) : levelEntries L ids i ≠ [] := by
  unfold levelEntries dedupFO
  cases ids with
  | nil => exact absurd rfl h
  | cons y ys =>
    simp only [List.map_cons, List.foldl_cons]
    exact foldl_dedupAdd_ne _ _ (dedupAdd_ne [] _)

theorem lcaLoop_no_div (td : TaxonomyData) (lins : List (String × List String))
    (ids : List String) (L : String → List String) (N : Nat)
    (hE : ∀ i, levelIds td lins ids i = levelEntries L ids i)
    (hne : ∀ i, levelEntries L ids i ≠ [])
    (hsing : ∀ j, j ≤ N → (levelEntries L ids j).length ≤ 1) :
    ∀ (steps i : Nat) (upper : List String),
      i + steps = N + 1 →
      (i = 0 → upper = [UNKNOWN_TAXONOMY_ID]) →
      (∀ i2, i = i2 + 1 → upper = levelEntries L ids i2) →
      lcaLoop td lins ids upper i steps =
        .ok ((levelEntries L ids N).headD UNKNOWN_TAXONOMY_ID) := by
  intro steps
  induction steps with
  | zero =>
    intro i upper hiN _ hs
    have hup : upper = levelEntries L ids N := hs N (by omega)
    have hpos : 0 < (levelEntries L ids N).length :=
      List.length_pos.mpr (hne N)
    have hle : (levelEntries L ids N).length ≤ 1 := hsing N (le_refl N)
    unfold lcaLoop
    rw [hup, if_pos (by omega)]
  | succ n ih =>
    intro i upper hiN h0 hs
    have hiled : i ≤ N := by omega
    unfold lcaLoop
    rw [hE i]
    rw [if_neg (by have := hsing i hiled; omega)]
    exact ih (i + 1) (levelEntries L ids i) (by omega)
      (fun h => absurd h (Nat.succ_ne_zero i))
      (fun i2 h2 => congrArg (levelEntries L ids) (Nat.succ_injective h2))

theorem lcaLoop_div (td : TaxonomyData) (lins : List (String × List String))
    (ids : List String) (L : String → List String) (N d : Nat)
    (hE : ∀ i, levelIds td lins ids i = levelEntries L ids i)
    (hne : ∀ i, levelEntries L ids i ≠ [])
    (hd_pos : 0 < d) (hdN : d ≤ N)
    (hdiv : 1 < (levelEntries L ids d).length)
    (hbef : ∀ j, j < d → (levelEntries L ids j).length ≤ 1) :
    ∀ (steps i : Nat) (upper : List String),
      i + steps = N + 1 → i ≤ d →
      (i = 0 → upper = [UNKNOWN_TAXONOMY_ID]) →
      (∀ i2, i = i2 + 1 → upper = levelEntries L ids i2) →
      lcaLoop td lins ids upper i steps =
        .ok ((levelEntries L ids (d - 1)).headD UNKNOWN_TAXONOMY_ID) := by
  intro steps
  induction steps with
  | zero =>
    intro i upper h1 h2 _ _
    exfalso; omega
  | succ n ih =>
    intro i upper h1 h2 h0 hs
    unfold lcaLoop
    rw [hE i]
    by_cases hid : i = d
    · subst hid
      rw [if_pos hdiv]
      have hup : upper = levelEntries L ids (i - 1) := hs (i - 1) (by omega)
      cases hup2 : upper with
      | nil =>
        exfalso
        exact hne (i - 1) (by rw [← hup, hup2])
      | cons u us =>
        have hh : (levelEntries L ids (i - 1)).headD UNKNOWN_TAXONOMY_ID = u := by
          rw [← hup, hup2]; rfl
        rw [hh]
    · have hlt : i < d := by omega
      rw [if_neg (by have := hbef i hlt; omega)]
      exact ih (i + 1) (levelEntries L ids i) (by omega) (by omega)
        (fun h => absurd h (Nat.succ_ne_zero i))
        (fun i2 h2' => congrArg (levelEntries L ids) (Nat.succ_injective h2'))

/-- C5: for two or more ids whose lineage walks all succeed, get_lca walks
depth positions from zero; if every level up to the min depth is a
singleton it returns the final singleton, and at the first level with more
than one distinct ancestor (at positive depth) it returns the previous
level's singleton.  In particular, on the spec's example tree root→A→B→C,
root→A→D→E, get_lca({C,E}) = A (and the tables are untouched). -/
theorem c5_get_lca_first_divergence :
    (∀ (td : TaxonomyData) (fuel : Nat) (ids : List String)
        (L : String → List String),
      2 ≤ ids.length →
      (∀ id ∈ ids, lineageOf td fuel id = some (L id)) →
      ((∀ j, j ≤ minDepthOf L ids → (levelEntries L ids j).length ≤ 1) →
        get_lca fuel td ids =
          (.ok ((levelEntries L ids (minDepthOf L ids)).headD UNKNOWN_TAXONOMY_ID),
            td)) ∧
      (∀ d, 0 < d → d ≤ minDepthOf L ids →
        1 < (levelEntries L ids d).length →
        (∀ j, j < d → (levelEntries L ids j).length ≤ 1) →
        get_lca fuel td ids =
          (.ok ((levelEntries L ids (d - 1)).headD UNKNOWN_TAXONOMY_ID), td))) ∧
    get_lca 10 exTree ["C", "E"] = (.ok "A", exTree) := by
  constructor
  · intro td fuel ids L hlen hL
    have hne_ids : ids ≠ [] := by
      cases ids with
      | nil => simp at hlen
      | cons y ys => simp
    have hlen1 : ¬(ids.length = 1) := by omega
    have hm : ∀ id ∈ ids, nodesMem td id = true :=
      fun id hid => lineageOf_mem td fuel id _ (hL id hid)
    have hf : ∀ id ∈ ids,
        assocFind (ids.map (fun x => (x, L x))) id = some (L id) :=
      fun id hid => assocFind_map_self L ids id hid
    have hE : ∀ i, levelIds td (ids.map (fun x => (x, L x))) ids i =
        levelEntries L ids i :=
      fun i => levelIds_eq td _ L i ids hm hf
    have hne : ∀ i, levelEntries L ids i ≠ [] :=
      fun i => levelEntries_ne L ids i hne_ids
    have hmain : get_lca fuel td ids =
        (lcaLoop td (ids.map (fun x => (x, L x))) ids [UNKNOWN_TAXONOMY_ID] 0
          (minDepthOf L ids + 1), td) := by
      unfold get_lca
      rw [if_neg hlen1, lcaLineages_spec fuel td L ids [] 1000 hL]
      simp only [List.nil_append]
      rfl
    constructor
    · intro hsing
      rw [hmain,
        lcaLoop_no_div td _ ids L (minDepthOf L ids) hE hne hsing
          (minDepthOf L ids + 1) 0 [UNKNOWN_TAXONOMY_ID] (by omega)
          (fun _ => rfl) (fun i2 h2 => absurd h2.symm (Nat.succ_ne_zero i2))]
    · intro d hd0 hdN hdiv hbef
      rw [hmain,
        lcaLoop_div td _ ids L (minDepthOf L ids) d hE hne hd0 hdN hdiv hbef
          (minDepthOf L ids + 1) 0 [UNKNOWN_TAXONOMY_ID] (by omega) (by omega)
          (fun _ => rfl) (fun i2 h2 => absurd h2.symm (Nat.succ_ne_zero i2))]
  · rfl

/-- The pure lineages of the example tree, used by the C5 witness. -/
def exL : String → List String := fun id =>
  if id = "C" then ["A", "B", "C"] else if id = "E" then ["A", "D", "E"] else []

/-- Witness for C5: on the example tree the first divergence is at depth 1
(B versus D), so get_lca returns the depth-0 singleton A. -/
theorem c5_witness :
    get_lca 10 exTree ["C", "E"] =
      (.ok ((levelEntries exL ["C", "E"] (1 - 1)).headD UNKNOWN_TAXONOMY_ID),
        exTree) := by
  exact ((c5_get_lca_first_divergence.1 exTree 10 ["C", "E"] exL (by decide)
    (by decide)).2 1 (by decide) (by decide) (by decide) (by decide))

/-! ### C9: reads leave the tables unchanged — under key closure -/

/-- Key-closure invariant of a loaded taxonomy (the spec's §3 invariant):
root and unknown entries are present, every parent link points to a node,
and names and nodes cover the same ids. -/
def TaxWF (td : TaxonomyData) : Prop :=
  nodesMem td ROOT_TAXONOMY_ID = true ∧
  nodesMem td UNKNOWN_TAXONOMY_ID = true ∧
  (∀ p ∈ td.nodes, p.2.parent.all (fun q => nodesMem td q) = true) ∧
  (∀ p ∈ td.names, nodesMem td p.1 = true) ∧
  (∀ p ∈ td.nodes, namesMem td p.1 = true)

theorem assocFind_isSome_of_mem {α : Type} (l : List (String × α)) (k : String)
    (h : assocMem l k = true) : ∃ v, assocFind l k = some v := by
  unfold assocMem at h
  cases hf : assocFind l k with
  | none => rw [hf] at h; simp at h
  | some v => exact ⟨v, rfl⟩

theorem assocFind_mem {α : Type} :
    ∀ (l : List (String × α)) (k : String) (v : α),
      assocFind l k = some v → (k, v) ∈ l := by
  intro l
  induction l with
  | nil => intro k v h; simp [assocFind] at h
  | cons p rest ih =>
    intro k v h
    unfold assocFind at h
    by_cases hp : p.1 = k
    · rw [if_pos hp] at h
      simp only [Option.some.injEq] at h
      have hpv : p = (k, v) := by
        obtain ⟨a, b⟩ := p
        simp only at hp h
        rw [hp, h]
      exact List.mem_cons.mpr (Or.inl hpv.symm)
    · rw [if_neg hp] at h
      exact List.mem_cons_of_mem _ (ih k v h)

theorem wf_parent_mem (td : TaxonomyData) (hwf : TaxWF td) (k : String)
    (e : TaxNode) (q : String) (hf : assocFind td.nodes k = some e)
    (hq : e.parent = some q) : nodesMem td q = true := by
  have hm := hwf.2.2.1 (k, e) (assocFind_mem td.nodes k e hf)
  rw [hq] at hm
  simpa using hm

theorem wf_names_nodes (td : TaxonomyData) (hwf : TaxWF td) (k : String)
    (h : namesMem td k = true) : nodesMem td k = true := by
  obtain ⟨v, hv⟩ := assocFind_isSome_of_mem td.names k h
  exact hwf.2.2.2.1 (k, v) (assocFind_mem td.names k v hv)

theorem wf_nodes_names (td : TaxonomyData) (hwf : TaxWF td) (k : String)
    (h : nodesMem td k = true) : namesMem td k = true := by
  obtain ⟨v, hv⟩ := assocFind_isSome_of_mem td.nodes k h
  exact hwf.2.2.2.2 (k, v) (assocFind_mem td.nodes k v hv)

theorem nodesGet_of_mem (td : TaxonomyData) (k : String) (e : TaxNode)
    (hf : assocFind td.nodes k = some e) : nodesGet td k = (e, td) := by
  unfold nodesGet
  rw [hf]

/-- A nodes entry read of a present key leaves the tables unchanged and
produces either a KeyError or a parent id that is itself a node. -/
theorem nodesParentS_cases (td : TaxonomyData) (hwf : TaxWF td) (k : String)
    (h : nodesMem td k = true) :
    nodesParentS td k = (.error "KeyError: parent", td) ∨
    ∃ p, nodesParentS td k = (.ok p, td) ∧ nodesMem td p = true := by
  obtain ⟨e, hf⟩ := assocFind_isSome_of_mem td.nodes k h
  obtain ⟨ep, er⟩ := e
  unfold nodesParentS
  rw [nodesGet_of_mem td k ⟨ep, er⟩ hf]
  cases ep with
  | none => exact Or.inl rfl
  | some p =>
    exact Or.inr ⟨p, rfl, wf_parent_mem td hwf k ⟨some p, er⟩ p hf rfl⟩

theorem nodesRankS_cases (td : TaxonomyData) (k : String)
    (h : nodesMem td k = true) :
    nodesRankS td k = (.error "KeyError: rank", td) ∨
    ∃ r, nodesRankS td k = (.ok r, td) := by
  obtain ⟨e, hf⟩ := assocFind_isSome_of_mem td.nodes k h
  obtain ⟨ep, er⟩ := e
  unfold nodesRankS
  rw [nodesGet_of_mem td k ⟨ep, er⟩ hf]
  cases er with
  | none => exact Or.inl rfl
  | some r => exact Or.inr ⟨r, rfl⟩

theorem namesNameS_cases (td : TaxonomyData) (k : String)
    (h : namesMem td k = true) :
    namesNameS td k = (.error "KeyError: name", td) ∨
    ∃ n, namesNameS td k = (.ok n, td) := by
  obtain ⟨e, hf⟩ := assocFind_isSome_of_mem td.names k h
  unfold namesNameS namesGet
  rw [hf]
  cases e with
  | none => exact Or.inl rfl
  | some n => exact Or.inr ⟨n, rfl⟩

theorem buildLineage_frame (td : TaxonomyData) (hwf : TaxWF td) :
    ∀ (fuel : Nat) (p : String) (lin : List String), nodesMem td p = true →
      (buildLineage td p lin fuel).2 = td := by
  intro fuel
  induction fuel with
  | zero => intro p lin _; rfl
  | succ n ih =>
    intro p lin hp
    unfold buildLineage
    rcases nodesParentS_cases td hwf p hp with he | ⟨pp, hok, hppmem⟩
    · rw [he]
    · simp only [hok]
      by_cases hroot : pp = ROOT_TAXONOMY_ID
      · rw [if_pos hroot]
      · rw [if_neg hroot]
        have hnxt : nodesMem td
            (if namesMem td pp = true then pp else UNKNOWN_TAXONOMY_ID) = true := by
          by_cases hn : namesMem td pp = true
          · rw [if_pos hn]; exact hppmem
          · rw [if_neg hn]; exact hwf.2.1
        exact ih _ _ hnxt

theorem lcaLineages_frame (td : TaxonomyData) (hwf : TaxWF td) (fuel : Nat) :
    ∀ (ids : List String) (lins : List (String × List String)) (minD : Nat),
      (lcaLineages fuel td ids lins minD).2 = td := by
  intro ids
  induction ids with
  | nil => intro lins minD; rfl
  | cons tid rest ih =>
    intro lins minD
    unfold lcaLineages
    by_cases hm : nodesMem td tid = true
    · rw [if_pos hm]
      rcases nodesParentS_cases td hwf tid hm with he | ⟨p, hok, hpm⟩
      · rw [he]
      · simp only [hok]
        rcases hb : buildLineage td p [p, tid] fuel with ⟨res, td2⟩
        have hbf := buildLineage_frame td hwf fuel p [p, tid] hpm
        rw [hb] at hbf
        have htd2 : td2 = td := hbf
        cases res with
        | error e => exact htd2
        | ok lin =>
          rw [htd2]
          exact ih _ _
    · rw [if_neg hm]
      exact ih _ _

theorem get_lca_frame (td : TaxonomyData) (hwf : TaxWF td) (fuel : Nat)
    (ids : List String) : (get_lca fuel td ids).2 = td := by
  unfold get_lca
  by_cases h1 : ids.length = 1
  · rw [if_pos h1]
  · rw [if_neg h1]
    rcases hll : lcaLineages fuel td ids [] 1000 with ⟨res, td1⟩
    have hf := lcaLineages_frame td hwf fuel ids [] 1000
    rw [hll] at hf
    have htd1 : td1 = td := hf
    cases res with
    | error e => exact htd1
    | ok pr =>
      obtain ⟨lins, minD⟩ := pr
      exact htd1

/-- All ids stored in the per-rank sets of get_lca2 are node members. -/
def levelsOK (td : TaxonomyData) (levels : List (String × List String)) : Prop :=
  ∀ pr ∈ levels, ∀ x ∈ pr.2, nodesMem td x = true

theorem mem_assocSet {α : Type} :
    ∀ (l : List (String × α)) (k : String) (v : α) (pr : String × α),
      pr ∈ assocSet l k v → pr ∈ l ∨ pr = (k, v) := by
  intro l
  induction l with
  | nil =>
    intro k v pr h
    simp only [assocSet] at h
    rcases List.mem_singleton.mp h with h2
    exact Or.inr h2
  | cons p rest ih =>
    intro k v pr h
    unfold assocSet at h
    by_cases hp : p.1 = k
    · rw [if_pos hp] at h
      rcases List.mem_cons.mp h with h2 | h2
      · exact Or.inr h2
      · exact Or.inl (List.mem_cons_of_mem _ h2)
    · rw [if_neg hp] at h
      rcases List.mem_cons.mp h with h2 | h2
      · exact Or.inl (List.mem_cons.mpr (Or.inl h2))
      · rcases ih k v pr h2 with h3 | h3
        · exact Or.inl (List.mem_cons_of_mem _ h3)
        · exact Or.inr h3

theorem mem_dedupAdd (l : List String) (x y : String)
    (h : y ∈ dedupAdd l x) : y ∈ l ∨ y = x := by
  unfold dedupAdd at h
  by_cases hx : x ∈ l
  · rw [if_pos hx] at h; exact Or.inl h
  · rw [if_neg hx] at h
    rcases List.mem_append.mp h with h2 | h2
    · exact Or.inl h2
    · exact Or.inr (List.mem_singleton.mp h2)

theorem levelsAdd_ok (td : TaxonomyData) (levels : List (String × List String))
    (rank tid : String) (hlv : levelsOK td levels)
    (htid : nodesMem td tid = true) : levelsOK td (levelsAdd levels rank tid) := by
  unfold levelsAdd
  cases hf : assocFind levels rank with
  | some s =>
    intro pr hpr x hx
    rcases mem_assocSet levels rank (dedupAdd s tid) pr hpr with h2 | h2
    · exact hlv pr h2 x hx
    · rw [h2] at hx
      rcases mem_dedupAdd s tid x hx with h3 | h3
      · exact hlv (rank, s) (assocFind_mem levels rank s hf) x h3
      · rw [h3]; exact htid
  | none =>
    intro pr hpr x hx
    rcases List.mem_append.mp hpr with h2 | h2
    · exact hlv pr h2 x hx
    · rw [List.mem_singleton.mp h2] at hx
      rw [List.mem_singleton.mp hx]
      exact htid

theorem lca2Chain_spec (td : TaxonomyData) (hwf : TaxWF td) :
    ∀ (fuel : Nat) (levels : List (String × List String)) (p : String),
      nodesMem td p = true → levelsOK td levels →
      (lca2Chain td levels p fuel).2 = td ∧
      ∀ levels2, (lca2Chain td levels p fuel).1 = .ok levels2 →
        levelsOK td levels2 := by
  intro fuel
  induction fuel with
  | zero =>
    intro levels p _ _
    exact ⟨rfl, fun levels2 h => absurd h (by simp [lca2Chain])⟩
  | succ n ih =>
    intro levels p hp hlv
    unfold lca2Chain
    by_cases hroot : p = ROOT_TAXONOMY_ID
    · rw [if_pos hroot]
      refine ⟨rfl, fun levels2 h => ?_⟩
      simp only [Except.ok.injEq] at h
      rw [← h]; exact hlv
    · rw [if_neg hroot]
      rcases nodesRankS_cases td p hp with he | ⟨r, hok⟩
      · rw [he]
        exact ⟨rfl, fun levels2 h => absurd h (by simp)⟩
      · simp only [hok]
        rcases nodesParentS_cases td hwf p hp with he2 | ⟨q, hok2, hqm⟩
        · rw [he2]
          exact ⟨rfl, fun levels2 h => absurd h (by simp)⟩
        · simp only [hok2]
          exact ih (levelsAdd levels r p) q hqm (levelsAdd_ok td levels r p hlv hp)

theorem lca2Collect_spec (td : TaxonomyData) (hwf : TaxWF td) (fuel : Nat) :
    ∀ (ids : List String) (levels : List (String × List String)),
      levelsOK td levels →
      (lca2Collect fuel td ids levels).2 = td ∧
      ∀ levels2, (lca2Collect fuel td ids levels).1 = .ok levels2 →
        levelsOK td levels2 := by
  intro ids
  induction ids with
  | nil =>
    intro levels hlv
    refine ⟨rfl, fun levels2 h => ?_⟩
    simp only [lca2Collect, Except.ok.injEq] at h
    rw [← h]; exact hlv
  | cons tid rest ih =>
    intro levels hlv
    unfold lca2Collect
    by_cases hempty : tid = ""
    · rw [if_pos hempty]
      exact ih levels hlv
    · rw [if_neg hempty]
      by_cases hm : nodesMem td tid = true
      · rw [if_pos hm]
        rcases nodesRankS_cases td tid hm with he | ⟨r, hok⟩
        · rw [he]
          exact ⟨rfl, fun levels2 h => absurd h (by simp)⟩
        · simp only [hok]
          rcases nodesParentS_cases td hwf tid hm with he2 | ⟨q, hok2, hqm⟩
          · rw [he2]
            exact ⟨rfl, fun levels2 h => absurd h (by simp)⟩
          · simp only [hok2]
            rcases hc : lca2Chain td (levelsAdd levels r tid) q fuel with ⟨res, td3⟩
            have hcs := lca2Chain_spec td hwf fuel (levelsAdd levels r tid) q hqm
              (levelsAdd_ok td levels r tid hlv hm)
            rw [hc] at hcs
            have htd3 : td3 = td := hcs.1
            cases res with
            | error e =>
              exact ⟨htd3, fun levels2 h => absurd h (by simp)⟩
            | ok levels1 =>
              rw [htd3]
              exact ih levels1 (hcs.2 levels1 rfl)
      · rw [if_neg hm]
        exact ih levels hlv

theorem lca2RankScan_ok (td : TaxonomyData) (levels : List (String × List String))
    (hlv : levelsOK td levels) :
    ∀ (ranks last_good : List String),
      (∀ x ∈ last_good, nodesMem td x = true) →
      ∀ x ∈ lca2RankScan levels last_good ranks, nodesMem td x = true := by
  intro ranks
  induction ranks with
  | nil => intro last_good hlg x hx; exact hlg x hx
  | cons rank rest ih =>
    intro last_good hlg x hx
    unfold lca2RankScan at hx
    by_cases hlen : ((assocFind levels rank).getD []).length = 1
    · rw [if_pos hlen] at hx
      refine ih _ ?_ x hx
      intro y hy
      cases hf : assocFind levels rank with
      | none => rw [hf] at hy; simp at hy
      | some s =>
        rw [hf] at hy
        exact hlv (rank, s) (assocFind_mem levels rank s hf) y hy
    · rw [if_neg hlen] at hx
      exact hlg x hx

theorem lca2Walk_frame (td : TaxonomyData) (hwf : TaxWF td) :
    ∀ (fuel : Nat) (ret : String), nodesMem td ret = true →
      (lca2Walk td ret fuel).2 = td := by
  intro fuel
  induction fuel with
  | zero => intro ret _; rfl
  | succ n ih =>
    intro ret hret
    unfold lca2Walk
    by_cases hroot : ret = ROOT_TAXONOMY_ID
    · rw [if_pos hroot]
    · rw [if_neg hroot]
      rcases nodesRankS_cases td ret hret with he | ⟨r, hok⟩
      · rw [he]
      · simp only [hok]
        by_cases hr : r ∈ RANKS
        · rw [if_pos hr]
        · rw [if_neg hr]
          rcases nodesParentS_cases td hwf ret hret with he2 | ⟨p, hok2, hpm⟩
          · rw [he2]
          · simp only [hok2]
            rcases nodesRankS_cases td p hpm with he3 | ⟨r2, hok3⟩
            · rw [he3]
            · simp only [hok3]
              exact ih p hpm

theorem get_lca2_frame (td : TaxonomyData) (hwf : TaxWF td) (fuel : Nat)
    (ids : List String) : (get_lca2 fuel td ids).2 = td := by
  unfold get_lca2
  by_cases h1 : ids.length = 1
  · rw [if_pos h1]
  · rw [if_neg h1]
    rcases hcl : lca2Collect fuel td ids [] with ⟨res, td1⟩
    have hcs := lca2Collect_spec td hwf fuel ids []
      (fun pr hpr => absurd hpr (List.not_mem_nil pr))
    rw [hcl] at hcs
    have htd1 : td1 = td := hcs.1
    cases res with
    | error e => exact htd1
    | ok levels =>
      rw [htd1]
      simp only []
      by_cases hlen : levels.length = 0
      · rw [if_pos hlen]
      · rw [if_neg hlen]
        have hlv : levelsOK td levels := hcs.2 levels rfl
        have hretm : nodesMem td
            ((lca2RankScan levels [ROOT_TAXONOMY_ID] (RANKS.drop 1)).headD
              UNKNOWN_TAXONOMY_ID) = true := by
          have hall := lca2RankScan_ok td levels hlv (RANKS.drop 1)
            [ROOT_TAXONOMY_ID] (by
              intro x hx
              rw [List.mem_singleton.mp hx]
              exact hwf.1)
          cases hsc : lca2RankScan levels [ROOT_TAXONOMY_ID] (RANKS.drop 1) with
          | nil => exact hwf.2.1
          | cons a as =>
            have := hall a (by rw [hsc]; exact List.mem_cons_self a as)
            simpa using this
        rcases nodesRankS_cases td _ hretm with he | ⟨r, hok⟩
        · rw [he]
        · simp only [hok]
          exact lca2Walk_frame td hwf fuel _ hretm

theorem gultWalk_frame (td : TaxonomyData) (hwf : TaxWF td) :
    ∀ (fuel : Nat) (cur : String), nodesMem td cur = true →
      (gultWalk td cur fuel).2 = td := by
  intro fuel
  induction fuel with
  | zero => intro cur _; rfl
  | succ n ih =>
    intro cur hc
    unfold gultWalk
    by_cases hroot : cur = "1"
    · rw [if_pos hroot]
      rcases nodesRankS_cases td ROOT_TAXONOMY_ID hwf.1 with he | ⟨r, hok⟩
      · rw [he]
      · rw [hok]
    · rw [if_neg hroot]
      rcases nodesParentS_cases td hwf cur hc with he | ⟨p, hok, hpm⟩
      · rw [he]
      · simp only [hok]
        rcases nodesRankS_cases td p hpm with he2 | ⟨r, hok2⟩
        · rw [he2]
        · simp only [hok2]
          by_cases hr : r ∈ RANKS
          · rw [if_pos hr]
          · rw [if_neg hr]
            exact ih p hpm

theorem get_upper_level_taxon_frame (td : TaxonomyData) (hwf : TaxWF td)
    (fuel : Nat) (tid : String) :
    (get_upper_level_taxon fuel td tid).2 = td := by
  unfold get_upper_level_taxon
  by_cases hn : namesMem td tid = true
  · rw [if_neg (by simp [hn])]
    have htid : nodesMem td tid = true := wf_names_nodes td hwf tid hn
    rcases nodesParentS_cases td hwf tid htid with he | ⟨cur, hok, hcm⟩
    · rw [he]
    · simp only [hok]
      rcases nodesRankS_cases td cur hcm with he2 | ⟨crank, hok2⟩
      · rw [he2]
      · simp only [hok2]
        by_cases hunk : cur = UNKNOWN_TAXONOMY_ID
        · rw [if_pos hunk]
          rcases nodesRankS_cases td UNKNOWN_TAXONOMY_ID hwf.2.1 with he3 | ⟨r3, hok3⟩
          · rw [he3]
          · rw [hok3]
        · rw [if_neg hunk]
          by_cases hrt : tid = ROOT_TAXONOMY_ID
          · rw [if_pos hrt]
            rcases nodesRankS_cases td ROOT_TAXONOMY_ID hwf.1 with he3 | ⟨r3, hok3⟩
            · rw [he3]
            · rw [hok3]
          · rw [if_neg hrt]
            by_cases hcr : crank ∈ RANKS
            · rw [if_pos hcr]
            · rw [if_neg hcr]
              exact gultWalk_frame td hwf fuel cur hcm
  · rw [if_pos (by simp [hn])]
    rcases nodesRankS_cases td UNKNOWN_TAXONOMY_ID hwf.2.1 with he | ⟨r, hok⟩
    · rw [he]
    · rw [hok]

theorem get_taxonomy_rank_frame (td : TaxonomyData) (tid : String) :
    (get_taxonomy_rank td tid).2 = td := by
  unfold get_taxonomy_rank
  by_cases h : nodesMem td tid = true
  · rw [if_pos h]
    rcases nodesRankS_cases td tid h with he | ⟨r, hok⟩
    · rw [he]
    · rw [hok]
  · rw [if_neg h]

theorem lineageStrWalk_frame (td : TaxonomyData) (hwf : TaxWF td) :
    ∀ (fuel : Nat) (p : String) (lin : List String), nodesMem td p = true →
      (lineageStrWalk td p lin fuel).2 = td := by
  intro fuel
  induction fuel with
  | zero => intro p lin _; rfl
  | succ n ih =>
    intro p lin hp
    unfold lineageStrWalk
    rcases nodesParentS_cases td hwf p hp with he | ⟨pp, hok, hppm⟩
    · rw [he]
    · simp only [hok]
      by_cases hroot : pp = "1"
      · rw [if_pos hroot]
      · rw [if_neg hroot]
        rcases nodesRankS_cases td p hp with he2 | ⟨r, hok2⟩
        · rw [he2]
        · simp only [hok2]
          have hnxt : nodesMem td
              (if namesMem td pp = true then pp else "0") = true := by
            by_cases hnm : namesMem td pp = true
            · rw [if_pos hnm]; exact hppm
            · rw [if_neg hnm]; exact hwf.2.1
          by_cases hr : r ∈ RANKS
          · rw [if_pos hr]
            rcases namesNameS_cases td p (wf_nodes_names td hwf p hp) with
              he3 | ⟨nm, hok3⟩
            · rw [he3]
            · simp only [hok3]
              exact ih _ _ hnxt
          · rw [if_neg hr]
            exact ih _ _ hnxt

theorem get_lineage_string_frame (td : TaxonomyData) (hwf : TaxWF td)
    (fuel : Nat) (tid : String) : (get_lineage_string fuel td tid).2 = td := by
  unfold get_lineage_string
  by_cases hm : nodesMem td tid = true
  · rw [if_neg (by simp [hm])]
    rcases namesNameS_cases td tid (wf_nodes_names td hwf tid hm) with he | ⟨nm, hok⟩
    · rw [he]
    · simp only [hok]
      rcases nodesParentS_cases td hwf tid hm with he2 | ⟨p, hok2, hpm⟩
      · rw [he2]
      · simp only [hok2]
        rcases hw : lineageStrWalk td p [nm] fuel with ⟨res, td3⟩
        have hwf2 := lineageStrWalk_frame td hwf fuel p [nm] hpm
        rw [hw] at hwf2
        have htd3 : td3 = td := hwf2
        cases res with
        | error e => exact htd3
        | ok lin => exact htd3
  · rw [if_pos (by simp [hm])]

/-- A taxonomy whose names table holds the id "5" that the nodes table
lacks: the very situation the load phase permits, since names and nodes
come from independent files. -/
def exBadTree : TaxonomyData :=
  { names := [("1", some "root"), ("0", some "Unknown"), ("5", some "five")],
    nodes := [("1", ⟨some "1", some "norank"⟩), ("0", ⟨some "1", some "norank"⟩)] }

/-- Counterexample for C9 as stated: reading `self.nodes['5']['parent']`
inside get_upper_level_taxon auto-vivifies an empty entry for "5" in the
nodes table before the KeyError, so a read operation does mutate the
tables. -/
theorem c9_counterexample_vivification :
    (get_upper_level_taxon 5 exBadTree "5").2 ≠ exBadTree ∧
    (get_upper_level_taxon 5 exBadTree "5").2.nodes =
      exBadTree.nodes ++ [("5", emptyTaxNode)] := by
  decide

/-- C9 (amended): after a load that satisfies key closure (every parent
link resolves to a node, names and nodes cover the same ids, root and
unknown present), none of the read operations changes the names or nodes
tables, for any argument and any fuel. -/
theorem c9_reads_leave_tables_unchanged :
    ∀ (td : TaxonomyData), TaxWF td →
      ∀ (fuel : Nat) (ids : List String) (tid : String),
        (get_lca fuel td ids).2 = td ∧
        (get_lca2 fuel td ids).2 = td ∧
        (get_upper_level_taxon fuel td tid).2 = td ∧
        (get_taxonomy_rank td tid).2 = td ∧
        (get_lineage_string fuel td tid).2 = td ∧
        (get_taxonomy_lineage fuel td tid).2 = td := by
  intro td hwf fuel ids tid
  exact ⟨get_lca_frame td hwf fuel ids,
    get_lca2_frame td hwf fuel ids,
    get_upper_level_taxon_frame td hwf fuel tid,
    get_taxonomy_rank_frame td tid,
    get_lineage_string_frame td hwf fuel tid,
    get_lineage_string_frame td hwf fuel tid⟩

/-- Witness for C9 on the example tree (which is key closed). -/
theorem c9_witness :
    (get_lca 5 exTree ["C", "E"]).2 = exTree ∧
    (get_lca2 5 exTree ["C", "E"]).2 = exTree ∧
    (get_upper_level_taxon 5 exTree "C").2 = exTree ∧
    (get_taxonomy_rank exTree "C").2 = exTree ∧
    (get_lineage_string 5 exTree "C").2 = exTree ∧
    (get_taxonomy_lineage 5 exTree "C").2 = exTree :=
  c9_reads_leave_tables_unchanged exTree (by unfold TaxWF; decide) 5 ["C", "E"] "C"

/-! ### C7: the final group is processed like interior groups -/

theorem insertByBitscore_length (h : DiamondHit) :
    ∀ (l : List DiamondHit), (insertByBitscore h l).length = l.length + 1 := by
  intro l
  induction l with
  | nil => rfl
  | cons x xs ih =>
    unfold insertByBitscore
    by_cases hx : x.bitscore < h.bitscore
    · rw [if_pos hx]; rfl
    · rw [if_neg hx]
      simp [ih]

theorem sortByBitscoreDesc_length (l : List DiamondHit) :
    (sortByBitscoreDesc l).length = l.length := by
  induction l with
  | nil => rfl
  | cons x xs ih =>
    unfold sortByBitscoreDesc at ih ⊢
    simp [List.foldr_cons, insertByBitscore_length, ih]

theorem greedyKeep_ne (c : ℚ) :
    ∀ (l kept : List DiamondHit), kept ≠ [] →
      l.foldl (fun kept h =>
        if kept.all (fun k => overlapFrac h k ≤ c) then kept ++ [h] else kept) kept ≠ [] := by
  intro l
  induction l with
  | nil => intro kept h; exact h
  | cons x xs ih =>
    intro kept hk
    simp only [List.foldl_cons]
    by_cases hall : kept.all (fun k => overlapFrac x k ≤ c) = true
    · rw [if_pos hall]
      exact ih _ (by simp)
    · rw [if_neg hall]
      exact ih _ hk

theorem filter_list_ne_nil (c : ℚ) (hl : List DiamondHit) (h : hl ≠ []) :
    filter_list c hl ≠ [] := by
  unfold filter_list
  have hlen : (sortByBitscoreDesc hl).length ≠ 0 := by
    rw [sortByBitscoreDesc_length]
    simpa [List.length_eq_zero] using h
  cases hs : sortByBitscoreDesc hl with
  | nil => rw [hs] at hlen; simp at hlen
  | cons x xs =>
    simp only [List.foldl_cons, List.all_nil, if_true]
    exact greedyKeep_ne c xs ([] ++ [x]) (by simp)

/-- The interior-transition finalisation and the end-of-file finalisation
of parse_reference_output compute the same working set: the only textual
difference (emptiness tested before or after the overlap filter) cannot be
observed because the filter preserves (non-)emptiness. -/
theorem refFinalize_eq (cfg : PipelineConfig) (rd : ReferenceData) (st : RefState) :
    refFinalizeInterior cfg rd st = refEOF cfg rd st := by
  obtain ⟨reads, cur, hl⟩ := st
  unfold refFinalizeInterior refEOF
  by_cases h : hl = []
  · subst h
    simp [filter_list, sortByBitscoreDesc]
  · have hne := filter_list_ne_nil cfg.overlap_cutoff hl h
    have h1 : (filter_list cfg.overlap_cutoff hl).length ≠ 0 := by
      simpa [List.length_eq_zero] using hne
    have h2 : hl.length ≠ 0 := by simpa [List.length_eq_zero] using h
    simp only []
    rw [if_pos h1, if_pos h2]

theorem assocFind_assocSet_ne {α : Type} :
    ∀ (l : List (String × α)) (k k2 : String) (v : α), k ≠ k2 →
      assocFind (assocSet l k v) k2 = assocFind l k2 := by
  intro l
  induction l with
  | nil =>
    intro k k2 v hk
    simp only [assocSet, assocFind]
    rw [if_neg hk]
  | cons p rest ih =>
    intro k k2 v hk
    unfold assocSet
    by_cases hp : p.1 = k
    · rw [if_pos hp]
      unfold assocFind
      rw [if_neg hk, if_neg (by rw [hp]; exact hk)]
    · rw [if_neg hp]
      unfold assocFind
      by_cases hp2 : p.1 = k2
      · rw [if_pos hp2, if_pos hp2]
      · rw [if_neg hp2, if_neg hp2]
        exact ih k k2 v hk

/-- The reference half of C7: appending one row of a different query that
passes both cutoffs does not change the last group's entry in the working
set — the end-of-file finalisation gave it exactly what the interior
transition now gives it. -/
theorem refAppend_eq (cfg : PipelineConfig) (rd : ReferenceData)
    (reads0 : List (String × AnnotatedRead)) (rows : List DiamondHit)
    (r : DiamondHit)
    (hid : ¬(r.identity < cfg.identity_cutoff))
    (hlen : ¬(r.length < cfg.length_cutoff))
    (hq : (parse_fastq_seqid r.query_id).1 ≠
      (rows.foldl (refStep cfg rd) ⟨reads0, "", []⟩).cur) :
    assocFind (parse_reference_output cfg rd reads0 (rows ++ [r]))
        ((rows.foldl (refStep cfg rd) ⟨reads0, "", []⟩).cur) =
      assocFind (parse_reference_output cfg rd reads0 rows)
        ((rows.foldl (refStep cfg rd) ⟨reads0, "", []⟩).cur) := by
  set st := rows.foldl (refStep cfg rd) (⟨reads0, "", []⟩ : RefState) with hst
  unfold parse_reference_output
  rw [List.foldl_append, ← hst]
  simp only [List.foldl_cons, List.foldl_nil]
  have hstep : refStep cfg rd st r =
      ⟨refFinalizeInterior cfg rd st, (parse_fastq_seqid r.query_id).1,
        [{ r with query_id := (parse_fastq_seqid r.query_id).1 }]⟩ := by
    unfold refStep
    rw [if_neg hid, if_neg hlen, if_pos hq]
  rw [hstep]
  unfold refEOF
  simp only []
  rw [if_pos (by simp)]
  rw [assocFind_assocSet_ne _ _ _ _ hq]
  rw [refFinalize_eq]
  rfl

theorem bgrFinalize_keeps_none (fuel : Nat) (rd : ReferenceData) (brc avg : ℚ)
    (cov : List (String × ℚ)) (reads : List (String × AnnotatedRead))
    (c : String) (hl : List DiamondHit) (td : TaxonomyData)
    (reads1 : List (String × AnnotatedRead)) (td1 : TaxonomyData) (k : String)
    (h : bgrFinalize fuel rd brc avg cov reads c hl td = .ok (reads1, td1))
    (hk : assocFind reads k = none) : assocFind reads1 k = none := by
  unfold bgrFinalize at h
  cases hs : splitQueryId c with
  | error e => rw [hs] at h; simp at h
  | ok tup =>
    obtain ⟨pid, s2, e2⟩ := tup
    simp only [hs] at h
    cases hfr : assocFind reads pid with
    | none =>
      simp only [hfr] at h
      simp only [Except.ok.injEq, Prod.mk.injEq] at h
      rw [← h.1]
      exact hk
    | some read =>
      simp only [hfr] at h
      cases hcmp : compare_hits_lca fuel read s2 e2
          ((DiamondHitList.mk c hl).annotate_hits rd) brc avg td rd (some cov) with
      | error e =>
        simp only [hcmp] at h
        exact Except.noConfusion h
      | ok pr =>
        obtain ⟨read1, td2⟩ := pr
        simp only [hcmp, Except.ok.injEq, Prod.mk.injEq] at h
        rw [← h.1]
        have hpid_ne : pid ≠ k := by
          intro hpk
          rw [hpk, hk] at hfr
          cases hfr
        rw [assocFind_assocSet_ne reads pid k read1 hpid_ne]
        exact hk

/-- The background half of C7: appending one row of a fresh, well-formed
query after the last group leaves the whole result of
parse_background_output unchanged — the interior transition performs the
very computation the end-of-file block performed, and the appended group
is skipped. -/
theorem bgrAppend_eq (fuel : Nat) (cfg : PipelineConfig) (rd : ReferenceData)
    (td : TaxonomyData) (cov : List (String × ℚ))
    (reads0 : List (String × AnnotatedRead)) (rows : List DiamondHit)
    (r : DiamondHit) (st : BgrState) (c : String) (hl : List DiamondHit)
    (b : String) (s e : ℤ)
    (hsteps0 : bgrSteps fuel cfg rd td cov reads0 rows = .ok st)
    (hcur : st.cur = some (c, hl))
    (hid : ¬(r.identity < cfg.identity_cutoff))
    (hlen : ¬(r.length < cfg.length_cutoff))
    (hq : r.query_id ≠ c)
    (hsplit : splitQueryId r.query_id = .ok (b, s, e))
    (hfind : assocFind st.reads b = none) :
    parse_background_output fuel cfg rd td cov reads0 (rows ++ [r]) =
      parse_background_output fuel cfg rd td cov reads0 rows := by
  unfold parse_background_output
  have hsa : bgrSteps fuel cfg rd td cov reads0 (rows ++ [r]) =
      Except.bind (bgrSteps fuel cfg rd td cov reads0 rows)
        (fun st2 => bgrStep fuel cfg rd cfg.bitscore_range_cutoff (bgrAvg cov)
          cov st2 r) := by
    unfold bgrSteps
    rw [List.foldl_append]
    rfl
  rw [hsa, hsteps0]
  simp only [hsteps0]
  have hstep : bgrStep fuel cfg rd cfg.bitscore_range_cutoff (bgrAvg cov) cov st r =
      match bgrFinalize fuel rd cfg.bitscore_range_cutoff (bgrAvg cov) cov
          st.reads c hl st.td with
      | .error e => .error e
      | .ok (reads1, td1) => .ok ⟨reads1, some (r.query_id, [r]), td1⟩ := by
    unfold bgrStep
    simp only [hcur]
    rw [if_neg hid, if_neg hlen, if_pos hq]
  cases hfin : bgrFinalize fuel rd cfg.bitscore_range_cutoff (bgrAvg cov) cov
      st.reads c hl st.td with
  | error e2 =>
    rw [hfin] at hstep
    simp only [Except.bind, hstep, hcur, hfin]
  | ok pr =>
    obtain ⟨reads1, td1⟩ := pr
    rw [hfin] at hstep
    have heof : bgrFinalize fuel rd cfg.bitscore_range_cutoff (bgrAvg cov) cov
        reads1 r.query_id [r] td1 = .ok (reads1, td1) := by
      unfold bgrFinalize
      simp only [hsplit]
      rw [bgrFinalize_keeps_none fuel rd cfg.bitscore_range_cutoff (bgrAvg cov)
        cov st.reads c hl st.td reads1 td1 b hfin hfind]
    simp only [Except.bind, hstep, hcur, hfin, heof]

/-- C7: in both passes the final group at end of input is finalised
exactly like an interior group: for the reference pass, the last group's
entry in the working set is the same whether or not one more passing row
of a different query follows; for the background pass, appending such a
row (whose composite id decodes and whose base id is absent from the
working set) leaves the entire result unchanged. -/
theorem c7_final_group_like_interior :
    (∀ (cfg : PipelineConfig) (rd : ReferenceData)
        (reads0 : List (String × AnnotatedRead)) (rows : List DiamondHit)
        (r : DiamondHit),
      ¬(r.identity < cfg.identity_cutoff) →
      ¬(r.length < cfg.length_cutoff) →
      (parse_fastq_seqid r.query_id).1 ≠
        (rows.foldl (refStep cfg rd) ⟨reads0, "", []⟩).cur →
      assocFind (parse_reference_output cfg rd reads0 (rows ++ [r]))
          ((rows.foldl (refStep cfg rd) ⟨reads0, "", []⟩).cur) =
        assocFind (parse_reference_output cfg rd reads0 rows)
          ((rows.foldl (refStep cfg rd) ⟨reads0, "", []⟩).cur)) ∧
    (∀ (fuel : Nat) (cfg : PipelineConfig) (rd : ReferenceData)
        (td : TaxonomyData) (cov : List (String × ℚ))
        (reads0 : List (String × AnnotatedRead)) (rows : List DiamondHit)
        (r : DiamondHit) (st : BgrState) (c : String) (hl : List DiamondHit)
        (b : String) (s e : ℤ),
      bgrSteps fuel cfg rd td cov reads0 rows = .ok st →
      st.cur = some (c, hl) →
      ¬(r.identity < cfg.identity_cutoff) →
      ¬(r.length < cfg.length_cutoff) →
      r.query_id ≠ c →
      splitQueryId r.query_id = .ok (b, s, e) →
      assocFind st.reads b = none →
      parse_background_output fuel cfg rd td cov reads0 (rows ++ [r]) =
        parse_background_output fuel cfg rd td cov reads0 rows) :=
  ⟨refAppend_eq, bgrAppend_eq⟩

/-- Witness configuration and rows for C7. -/
def exCfg : PipelineConfig :=
  { identity_cutoff := 50, length_cutoff := 15, overlap_cutoff := 1/2,
    bitscore_range_cutoff := 97/100 }

def exRefRows : List DiamondHit := [mkHit "r1" "s1" 95 100 1 100 50 []]

def exRefRow2 : DiamondHit := mkHit "r2" "s2" 95 100 1 100 40 []

def exBgrHit1 : DiamondHit := mkHit "p1|1|100" "s1" 95 100 1 100 50 []

def exBgrRow2 : DiamondHit := mkHit "p2|5|50" "s2" 95 100 5 50 40 []

def exBgrRead : AnnotatedRead :=
  { read_id := "p1", read_id_line := "", status := "unprocessed",
    hit_list := ⟨"p1", [mkHit "p1" "s1" 95 100 1 100 50 ["F1"]]⟩,
    functions := [], taxonomy := "" }

def exBgrState : BgrState :=
  ⟨[("p1", exBgrRead)], some ("p1|1|100", [exBgrHit1]), exTree⟩

/-- Witness for C7: a one-group reference stream extended by one passing
row of another query keeps the same "r1" entry, and a one-group background
stream extended by one passing row of a fresh query gives the identical
overall result. -/
theorem c7_witness :
    (assocFind (parse_reference_output exCfg exRefData [] (exRefRows ++ [exRefRow2]))
        ((exRefRows.foldl (refStep exCfg exRefData) ⟨[], "", []⟩).cur) =
      assocFind (parse_reference_output exCfg exRefData [] exRefRows)
        ((exRefRows.foldl (refStep exCfg exRefData) ⟨[], "", []⟩).cur)) ∧
    (parse_background_output 7 exCfg exRefData exTree [] [("p1", exBgrRead)]
        ([exBgrHit1] ++ [exBgrRow2]) =
      parse_background_output 7 exCfg exRefData exTree [] [("p1", exBgrRead)]
        [exBgrHit1]) := by
  constructor
  · exact c7_final_group_like_interior.1 exCfg exRefData [] exRefRows exRefRow2
      (by norm_num [exRefRow2, mkHit, exCfg])
      (by norm_num [exRefRow2, mkHit, exCfg])
      (by norm_num +decide [exRefRows, exRefRow2, mkHit, exCfg, refStep,
        parse_fastq_seqid, strStarts, listPfx, strHasChar, charSplit, charSplitAux,
        strEnds, strDrop, refFinalizeInterior, filter_list, sortByBitscoreDesc])
  · exact c7_final_group_like_interior.2 7 exCfg exRefData exTree []
      [("p1", exBgrRead)] [exBgrHit1] exBgrRow2 exBgrState "p1|1|100" [exBgrHit1]
      "p2" 5 50
      (by norm_num +decide [bgrSteps, bgrStep, bgrAvg, Except.bind, exBgrHit1,
        exBgrState, exBgrRead, mkHit, exCfg])
      rfl
      (by norm_num [exBgrRow2, mkHit, exCfg])
      (by norm_num [exBgrRow2, mkHit, exCfg])
      (by decide)
      rfl
      rfl

end Fama
